import Mathlib

/-!
Verification of the retrieval / workflow-orchestration backend.

This file gives a shallow embedding, in Lean 4, of the core services of the
repository (the conversation memory store, the vector store, the RAG answer
service, the workflow executor and the PDF chunker), translated from the
TypeScript sources under `src/backend/src/services` and the workflow/memory
service file, and proves or refutes the frozen claims about them.

Modelling conventions:
- A JavaScript `Map` is modelled as an insertion-ordered association list
  (`alGet` / `alSet` / `alUpd` / `alDel` below); `Map.set` updates in place
  when the key exists and appends otherwise, matching JS semantics.
- JS strings are Lean `String`s (for the chunker, `List Char`, since that
  proof works character by character); numeric scores (`number`) are `ℚ`;
  `Date.now()` is an explicit `now : Nat` argument (milliseconds).
- Network calls (embedding / chat providers) are oracles: optional functions
  returning `Except String α`; `none` models an uninitialised client.
- A `try`/`catch` around mutations of a shared mutable singleton is modelled
  by returning the state alongside an `Except`: the state at throw time is
  kept, exactly as the JS mutation persists past the `throw`.
- `Math.sqrt` (floating point) is an uninterpreted parameter `sq : ℚ → ℚ`;
  no claim depends on the numeric value of a similarity score.
-/

/-! ## Association lists modelling JS `Map` -/

/-- `Map.get`: first binding of the key, if any. -/
def alGet {α : Type} (k : String) : List (String × α) → Option α
  | [] => none
  | (k', v) :: rest => if k' = k then some v else alGet k rest

/-- `Map.set`: update in place when present (keeping insertion order),
append otherwise. -/
def alSet {α : Type} (k : String) (v : α) : List (String × α) → List (String × α)
  | [] => [(k, v)]
  | (k', v') :: rest => if k' = k then (k, v) :: rest else (k', v') :: alSet k v rest

/-- Mutation through an aliased reference: the value is replaced only when the
key is still present in the map (a JS object mutated after `Map.delete`
does not reappear in the map). -/
def alUpd {α : Type} (k : String) (v : α) : List (String × α) → List (String × α)
  | [] => []
  | (k', v') :: rest => if k' = k then (k, v) :: rest else (k', v') :: alUpd k v rest

/-- `Map.delete`. -/
def alDel {α : Type} (k : String) : List (String × α) → List (String × α)
  | [] => []
  | (k', v') :: rest => if k' = k then rest else (k', v') :: alDel k rest

/-! ## Small JS helpers -/

/-- `arr.slice(-n)` (note `slice(-0)` is `slice(0)`, the whole array). -/
def jsSliceNeg {α : Type} (n : Nat) (l : List α) : List α :=
  if n = 0 then l else l.drop (l.length - n)

/-- `s.substring(0, n)`. -/
def strTake (n : Nat) (s : String) : String :=
  (s.toList.take n).asString

/-- Is `pat` a prefix of `l`? -/
def listPfx : List Char → List Char → Bool
  | [], _ => true
  | _ :: _, [] => false
  | a :: as, b :: bs => a = b && listPfx as bs

/-- Does `l` contain `pat` as a contiguous run? (JS `String.includes`.) -/
def listHas (pat : List Char) : List Char → Bool
  | [] => pat.isEmpty
  | c :: rest => listPfx pat (c :: rest) || listHas pat rest

/-- JS `s.includes(pat)`. -/
def strContains (s pat : String) : Bool :=
  listHas pat.toList s.toList

/-- JS `s.startsWith(pat)`. -/
def strStarts (s pat : String) : Bool :=
  listPfx pat.toList s.toList

/-- JS `a || b` on optional strings, where the empty string is falsy. -/
def jsOrS : Option String → Option String → Option String
  | some s, b => if s = "" then b else some s
  | none, b => b

/-- JS truthiness of an optional string. -/
def jsTruthyS : Option String → Bool
  | some s => decide (s ≠ "")
  | none => false

/-- `text || 'No response generated'`. -/
def jsOrDefault (s fallback : String) : String :=
  if s = "" then fallback else s

/-- `Promise.all` over per-item calls: first rejection wins. -/
def mapExcept {α β : Type} (f : α → Except String β) : List α → Except String (List β)
  | [] => .ok []
  | a :: rest =>
    match f a with
    | .error e => .error e
    | .ok b =>
      match mapExcept f rest with
      | .error e => .error e
      | .ok bs => .ok (b :: bs)

/-! ## Conversation memory store (`memoryService.ts`) -/

inductive Role where
  | user
  | assistant
  | system
deriving DecidableEq, Repr

structure ConversationMessage where
  role : Role
  content : String
  timestamp : Nat
deriving DecidableEq, Repr

structure ConversationSession where
  sessionId : String
  documentId : Option String
  messages : List ConversationMessage
  createdAt : Nat
  lastAccessed : Nat
deriving DecidableEq, Repr

/-- The `MemoryService.sessions` map. -/
abbrev MemoryState := List (String × ConversationSession)

def MAX_SESSIONS : Nat := 100

def MAX_MESSAGES_PER_SESSION : Nat := 20

/-- 30 minutes in milliseconds. -/
def SESSION_TIMEOUT : Nat := 30 * 60 * 1000

/-- `MemoryService.cleanupOldSessions`. Only runs its purge when the session
count exceeds `MAX_SESSIONS`; otherwise the map is returned untouched. -/
def cleanupOldSessions (st : MemoryState) (now : Nat) : MemoryState :=
  if st.length ≤ MAX_SESSIONS then st
  else
    let expired := (st.filter fun p => SESSION_TIMEOUT < now - p.2.lastAccessed).map (·.1)
    let toDelete :=
      if MAX_SESSIONS < st.length - expired.length then
        let sorted := List.insertionSort (fun a b => a.2.lastAccessed ≤ b.2.lastAccessed) st
        expired ++ ((sorted.take (st.length - MAX_SESSIONS)).map (·.1))
      else expired
    toDelete.foldl (fun m k => alDel k m) st

/-- `MemoryService.getSession`. -/
def getSession (st : MemoryState) (now : Nat) (workflowId : String)
    (documentId : Option String) : ConversationSession × MemoryState :=
  match alGet workflowId st with
  | none =>
    let s : ConversationSession :=
      { sessionId := workflowId, documentId := documentId, messages := [],
        createdAt := now, lastAccessed := now }
    (s, cleanupOldSessions (alSet workflowId s st) now)
  | some s =>
    let s' := { s with
      lastAccessed := now,
      documentId :=
        if jsTruthyS documentId && !(jsTruthyS s.documentId) then documentId
        else s.documentId }
    (s', alSet workflowId s' st)

/-- `MemoryService.addMessage`: push, then keep only the last
`MAX_MESSAGES_PER_SESSION` messages. -/
def addMessage (st : MemoryState) (now : Nat) (workflowId : String)
    (role : Role) (content : String) : MemoryState :=
  let pair := getSession st now workflowId none
  let s := pair.1
  let pushed := s.messages ++ [{ role := role, content := content, timestamp := now }]
  let msgs :=
    if MAX_MESSAGES_PER_SESSION < pushed.length then
      jsSliceNeg MAX_MESSAGES_PER_SESSION pushed
    else pushed
  alUpd workflowId { s with messages := msgs, lastAccessed := now } pair.2

/-- `MemoryService.getConversationHistory`: last `maxMessages` messages
excluding the most recent one (`slice(-maxMessages - 1, -1)`). Note it takes
no notion of current time and performs no expiry check. -/
def getConversationHistory (st : MemoryState) (workflowId : String)
    (maxMessages : Nat) : List ConversationMessage :=
  match alGet workflowId st with
  | none => []
  | some s =>
    if s.messages = [] then []
    else (s.messages.take (s.messages.length - 1)).drop
      (s.messages.length - (maxMessages + 1))

/-- `MemoryService.getAllMessages`. -/
def getAllMessages (st : MemoryState) (workflowId : String) : List ConversationMessage :=
  match alGet workflowId st with
  | none => []
  | some s => s.messages

/-- `MemoryService.clearSession`. -/
def clearSession (st : MemoryState) (workflowId : String) : MemoryState :=
  alDel workflowId st

/-! ## Vector store (`vectorStore.ts`) -/

structure DocumentChunk where
  text : String
  embedding : List ℚ
deriving DecidableEq, Repr

structure Document where
  id : String
  chunks : List DocumentChunk
deriving DecidableEq, Repr

/-- The `VectorStore.documents` map. -/
abbrev DocStore := List (String × Document)

/-- Embedding-provider environment of `VectorStore`: which clients were
initialised (a client is `some` oracle iff its API key was present) and the
configured `EMBEDDING_MODEL` (already defaulted to `text-embedding-004`).
`openaiKey` is kept because the auth-failure message prints facts about it. -/
structure EmbedEnv where
  geminiEmbed : Option (String → Except String (List ℚ))
  openaiEmbed : Option (List String → Except String (List (List ℚ)))
  embeddingModel : String
  openaiKey : Option String

/-- `model.replace(/^models\//, '')`. -/
def stripModels (model : String) : String :=
  if strStarts model "models/" then (model.toList.drop 7).asString else model

/-- Key diagnostics interpolated into the OpenAI auth-failure message. -/
def openaiKeyInfo (key : Option String) : String :=
  match key with
  | some k =>
    "Key length: " ++ toString k.length ++
      " chars (expected 50-60). Key prefix: " ++ strTake 10 k ++ "..."
  | none => "Key not set"

/-- Second half of `VectorStore.generateEmbeddings`: the OpenAI attempt and
the terminal error cases, given the error recorded from the Gemini attempt
(`originalError`). -/
def generateEmbeddingsOpenai (env : EmbedEnv) (texts : List String)
    (originalError : Option String) : Except String (List (List ℚ)) :=
  match env.openaiEmbed with
  | some oa =>
    match oa texts with
    | .ok r => .ok r
    | .error errorMsg =>
      if strContains errorMsg "401" || strContains errorMsg "API key" ||
          strContains errorMsg "Incorrect API key" then
        .error ("OpenAI API authentication failed: " ++ errorMsg ++ ". " ++
          openaiKeyInfo env.openaiKey ++ ". " ++
          "Please check your OPENAI_API_KEY in environment variables. " ++
          "Make sure the key is complete (50-60 characters).")
      else if strContains errorMsg "429" || strContains errorMsg "quota" ||
          strContains errorMsg "billing" then
        .error ("OpenAI API quota exceeded. " ++
          "Fix billing at https://platform.openai.com/account/billing. " ++
          "Error: " ++ errorMsg)
      else .error ("Failed to generate embeddings with OpenAI: " ++ errorMsg)
  | none =>
    match originalError with
    | some e => .error ("Gemini embedding failed and no OpenAI fallback available: " ++ e)
    | none => .error "No API client available for embeddings"

/-- Is the configured model routed to the Gemini embedding API? -/
def isGeminiEmbeddingModel (model : String) : Bool :=
  strContains (stripModels model) "embedding" ||
    strContains (stripModels model) "text-embedding"

/-- `VectorStore.generateEmbeddings`: Gemini first (when its client exists and
the model name looks like a Gemini embedding model), then OpenAI, recording
the Gemini failure in `originalError`. -/
def generateEmbeddings (env : EmbedEnv) (texts : List String) :
    Except String (List (List ℚ)) :=
  match env.geminiEmbed with
  | some g =>
    if isGeminiEmbeddingModel env.embeddingModel then
      match mapExcept g texts with
      | .ok embeddings => .ok embeddings
      | .error e => generateEmbeddingsOpenai env texts (some e)
    else generateEmbeddingsOpenai env texts none
  | none => generateEmbeddingsOpenai env texts none

/-- `VectorStore.cosineSimilarity`, with `Math.sqrt` as the parameter `sq`.
Throws exactly on a length mismatch; otherwise computes
`dot / (sq normA * sq normB)` (division by zero yields `0` in `ℚ`, standing
in for the accepted NaN edge case). -/
def cosineSimilarity (sq : ℚ → ℚ) (vecA vecB : List ℚ) : Except String ℚ :=
  if vecA.length ≠ vecB.length then .error "Vectors must have the same length"
  else
    let dotProduct := ((vecA.zip vecB).map fun p => p.1 * p.2).sum
    let normA := (vecA.map fun x => x * x).sum
    let normB := (vecB.map fun x => x * x).sum
    .ok (dotProduct / (sq normA * sq normB))

/-- `VectorStore.addDocument`. Returns the call outcome together with the
(possibly updated) document map. -/
def addDocument (env : EmbedEnv) (docs : DocStore) (documentId : String)
    (chunks : List String) : Except String Unit × DocStore :=
  match generateEmbeddings env chunks with
  | .error e => (.error ("Failed to add document to vector store: " ++ e), docs)
  | .ok embeddings =>
    -- `embeddings[index]` is `undefined` when the oracle returns a short
    -- list; `[]` stands in for that out-of-bounds access.
    let documentChunks := chunks.mapIdx fun index text =>
      ({ text := text, embedding := embeddings.getD index [] } : DocumentChunk)
    (.ok (), alSet documentId { id := documentId, chunks := documentChunks } docs)

/-- Scored snippet, as produced by `search` and consumed by the RAG service. -/
structure Ctx where
  text : String
  score : ℚ
deriving DecidableEq, Repr

/-- Descending-score ordering used by `sort((a, b) => b.score - a.score)`. -/
def scoreDesc (a b : Ctx) : Prop := b.score ≤ a.score

instance : DecidableRel scoreDesc := fun a b => inferInstanceAs (Decidable (b.score ≤ a.score))

instance : IsTotal Ctx scoreDesc := ⟨fun a b => le_total b.score a.score⟩

instance : IsTrans Ctx scoreDesc := ⟨fun _ _ _ h h' => le_trans h' h⟩

/-- `VectorStore.search`: query embedding, cosine score per stored chunk,
sort descending, take `topK`. Any throw inside the `try` is wrapped. -/
def search (env : EmbedEnv) (sq : ℚ → ℚ) (docs : DocStore) (query : String)
    (documentId : String) (topK : Nat) : Except String (List Ctx) :=
  match alGet documentId docs with
  | none => .error ("Document " ++ documentId ++ " not found")
  | some document =>
    match generateEmbeddings env [query] with
    | .error e => .error ("Failed to search vector store: " ++ e)
    | .ok queryEmbeddings =>
      -- `queryEmbeddings[0]`; `[]` stands in for `undefined`.
      let queryEmbedding := queryEmbeddings.getD 0 []
      match mapExcept
          (fun chunk =>
            (cosineSimilarity sq queryEmbedding chunk.embedding).map
              fun score => ({ text := chunk.text, score := score } : Ctx))
          document.chunks with
      | .error e => .error ("Failed to search vector store: " ++ e)
      | .ok results => .ok ((List.insertionSort scoreDesc results).take topK)

/-! ## Context deduplication (`WorkflowService.deduplicateContext`) -/

/-- First 100 characters of a chunk, used as its dedup hash. -/
def textHash (c : Ctx) : String := strTake 100 c.text

/-- The `forEach` accumulation: keep an item iff its hash is unseen. -/
def dedupLoop : List Ctx → List String → List Ctx
  | [], _ => []
  | item :: rest, seen =>
    if textHash item ∈ seen then dedupLoop rest seen
    else item :: dedupLoop rest (textHash item :: seen)

/-- `WorkflowService.deduplicateContext`: sort by score descending (the JS
in-place `sort` is modelled by insertion sort over the comparator's order),
then keep the first item of each 100-character-prefix class. -/
def deduplicateContext (context : List Ctx) : List Ctx :=
  dedupLoop (List.insertionSort scoreDesc context) []

/-! ## RAG service (`ragService.ts`) -/

structure ChatMsg where
  role : Role
  content : String
deriving DecidableEq, Repr

/-- Provider environment of `RAGService`. Chat oracles take the resolved
model name, the message list (or, for Gemini, the flattened prompt) and the
clamped token limit. `chatModelEnv` / `maxTokensEnv` are `process.env`
values (`none` when unset; `MAX_TOKENS` is modelled as an already-parsed
`Nat`). `maxChunkLength` and `maxHistoryMessages` carry the corresponding
`parseInt(process.env... || default)` results. -/
structure RagEnv where
  geminiChat : Option (String → Nat → String → Except String String)
  openaiChat : Option (String → List ChatMsg → Nat → Except String String)
  openRouterChat : Option (String → List ChatMsg → Nat → Except String String)
  chatModelEnv : Option String
  maxTokensEnv : Option Nat
  maxChunkLength : Nat
  maxHistoryMessages : Nat
  embed : EmbedEnv
  sqrtFn : ℚ → ℚ

/-- `RAGService.buildSystemPrompt` (a fixed template). -/
def buildSystemPrompt : String :=
  "You are a helpful assistant that provides detailed, comprehensive answers based on the provided document context. \n    \nWhen answering questions:\n- Provide thorough, detailed explanations\n- Include relevant examples and details from the context\n- Explain concepts fully and clearly\n- Use the document context extensively to support your answers\n- If information isn't in the context, clearly state that and provide what you can based on general knowledge\n\nAim for comprehensive, well-explained responses that fully address the user's question."

/-- One `[Excerpt i]` block of the user prompt. -/
def excerptBlock (maxChunkLength : Nat) (index : Nat) (item : Ctx) : String :=
  let truncatedText :=
    if maxChunkLength < item.text.length then strTake maxChunkLength item.text ++ "..."
    else item.text
  "[Excerpt " ++ toString (index + 1) ++ "]:\n" ++ truncatedText ++ "\n\n"

/-- One `Q:`/`A:` line of the history section. -/
def historyLine (msg : ChatMsg) : String :=
  (if msg.role = Role.user then "Q" else "A") ++ ": " ++ msg.content ++ "\n"

/-- `RAGService.buildUserPrompt`. -/
def buildUserPrompt (maxChunkLength : Nat) (query : String)
    (context : Option (List Ctx)) (history : Option (List ChatMsg)) : String :=
  let ctxPart :=
    match context with
    | some ctx =>
      if 0 < ctx.length then
        "## Document Context\n\n" ++
          String.join ((ctx.enum.map fun p => excerptBlock maxChunkLength p.1 p.2))
      else ""
    | none => ""
  let histPart :=
    match history with
    | some h =>
      if 0 < h.length then
        "## Previous Context\n\n" ++ String.join (h.map historyLine) ++ "\n"
      else ""
    | none => ""
  let base := ctxPart ++ histPart ++ "## Question\n" ++ query ++ "\n\n## Answer\n"
  match context with
  | some ctx => if 0 < ctx.length then base ++ "Use the document context above. " else base
  | none => base

/-- Gemini has no system role: flatten system + history + user into one
prompt with `User:` / `Assistant:` markers. -/
def buildGeminiPrompt (messages : List ChatMsg) : String :=
  let systemPart :=
    match messages.find? (fun m => m.role == Role.system) with
    | some m => m.content ++ "\n\n"
    | none => ""
  let conversation := messages.filter fun m => !(m.role == Role.system)
  systemPart ++ String.join (conversation.map fun m =>
    match m.role with
    | Role.user => "User: " ++ m.content ++ "\n\n"
    | Role.assistant => "Assistant: " ++ m.content ++ "\n\n"
    | Role.system => "")

/-- The Gemini generation branch: `CHAT_MODEL || 'gemini-2.5-flash'`, strip a
`models/` tag, clamp `maxOutputTokens` into `[50, 8192]`. -/
def geminiModelName (env : RagEnv) : String :=
  stripModels (env.chatModelEnv.getD "gemini-2.5-flash")

def geminiMaxTokens (env : RagEnv) : Nat :=
  let m0 := env.maxTokensEnv.getD 4096
  let m1 := if m0 < 50 then 50 else m0
  if 8192 < m1 then 8192 else m1

/-- `max_tokens` for the OpenAI/OpenRouter fallback: env value, else a
per-configuration default, clamped into `[50, 4096]`. -/
def fallbackMaxTokens (env : RagEnv) : Nat :=
  let m0 :=
    match env.maxTokensEnv with
    | some v => v
    | none =>
      if env.openaiChat.isSome && !env.openRouterChat.isSome then 4096
      else if env.openRouterChat.isSome && !env.openaiChat.isSome then 3000
      else 4096
  let m1 := if 4096 < m0 then 4096 else m0
  if m1 < 50 then 50 else m1

/-- Append the user query and the assistant answer to the session when a
(truthy) `workflowId` is present — the commit performed on every successful
provider path of `generateResponse`. -/
def commitToMemory (mem : MemoryState) (now : Nat) (workflowId : Option String)
    (query responseText : String) : Except String String × MemoryState :=
  if jsTruthyS workflowId then
    let wf := workflowId.getD ""
    let mem1 := addMessage mem now wf Role.user query
    let mem2 := addMessage mem1 now wf Role.assistant responseText
    (.ok responseText, mem2)
  else (.ok responseText, mem)

/-- OpenAI/OpenRouter fallback of `RAGService.generateResponse` (reached when
the Gemini client is absent or its call failed with a fallback available). -/
def genRespFallback (env : RagEnv) (mem : MemoryState) (query : String)
    (workflowId : Option String) (messages : List ChatMsg) (now : Nat) :
    Except String String × MemoryState :=
  let chatModel := env.chatModelEnv.getD "gpt-3.5-turbo"
  let isGeminiModel :=
    strContains chatModel "gemini" || strStarts chatModel "models/gemini"
  let model0 := if isGeminiModel then "gpt-3.5-turbo" else chatModel
  if !env.openaiChat.isSome && !env.openRouterChat.isSome then
    (.error "No API client available for chat generation", mem)
  else
    let maxTokens := fallbackMaxTokens env
    match env.openaiChat with
    | some oa =>
      match oa model0 messages maxTokens with
      | .ok t => commitToMemory mem now workflowId query (jsOrDefault t "No response generated")
      | .error errorMsg =>
        match env.openRouterChat with
        | some orc =>
          let model1 := if !strContains model0 "/" then "openai/" ++ model0 else model0
          match orc model1 messages maxTokens with
          | .ok t => commitToMemory mem now workflowId query (jsOrDefault t "No response generated")
          | .error e2 => (.error e2, mem)
        | none => (.error errorMsg, mem)
    | none =>
      let model1 :=
        if !strContains model0 "/" && !isGeminiModel then
          if !strStarts model0 "openai/" && !strStarts model0 "anthropic/" &&
              !strStarts model0 "google/" then
            "openai/" ++ model0
          else model0
        else model0
      match env.openRouterChat with
      | some orc =>
        match orc model1 messages maxTokens with
        | .ok t => commitToMemory mem now workflowId query (jsOrDefault t "No response generated")
        | .error e2 => (.error e2, mem)
      | none => (.error "No API client available for chat generation", mem)

/-- Body of the `try` block of `RAGService.generateResponse`. -/
def genRespInner (env : RagEnv) (docs : DocStore) (mem : MemoryState)
    (query : String) (context : Option (List Ctx)) (documentId : Option String)
    (workflowId : Option String) (conversationHistory : Option (List ChatMsg))
    (now : Nat) : Except String String × MemoryState :=
  let finalContextE : Except String (Option (List Ctx)) :=
    if jsTruthyS documentId && context.isNone then
      (search env.embed env.sqrtFn docs query (documentId.getD "") 5).map some
    else .ok context
  match finalContextE with
  | .error e => (.error e, mem)
  | .ok finalContext =>
    let history : Option (List ChatMsg) :=
      if jsTruthyS workflowId && conversationHistory.isNone then
        some (((getConversationHistory mem (workflowId.getD "") env.maxHistoryMessages).filter
            fun m => !(m.role == Role.system)).map
          fun m => { role := m.role, content := strTake 500 m.content })
      else
        match conversationHistory with
        | some h => some (h.map fun m => { m with content := strTake 500 m.content })
        | none => none
    let systemPrompt := buildSystemPrompt
    let userPrompt := buildUserPrompt env.maxChunkLength query finalContext history
    let messages : List ChatMsg :=
      { role := Role.system, content := systemPrompt } ::
        (history.getD [] ++ [{ role := Role.user, content := userPrompt }])
    match env.geminiChat with
    | some gem =>
      match gem (geminiModelName env) (geminiMaxTokens env) (buildGeminiPrompt messages) with
      | .ok t => commitToMemory mem now workflowId query (jsOrDefault t "No response generated")
      | .error errorMsg =>
        if env.openaiChat.isSome || env.openRouterChat.isSome then
          genRespFallback env mem query workflowId messages now
        else (.error ("Gemini API failed: " ++ errorMsg), mem)
    | none => genRespFallback env mem query workflowId messages now

/-- Scan for the literal `can only afford ` and parse the digit run after it
(the `/can only afford (\d+)/` match of the credit-error handler). -/
def affordDigits : List Char → Option (List Char)
  | [] => none
  | c :: rest =>
    if listPfx "can only afford ".toList (c :: rest) then
      let tail := (c :: rest).drop "can only afford ".length
      let ds := tail.takeWhile Char.isDigit
      if ds.isEmpty then affordDigits rest else some ds
    else affordDigits rest

def extractAfford (s : String) : Option Nat :=
  (affordDigits s.toList).map fun ds => ds.asString.toNat!

/-- The credit-limit error message built by the outer `catch`.
`Math.floor(affordableTokens * 0.7)` is approximated by `7 * x / 10`
(the float factor is not exactly representable; no claim depends on it). -/
def creditErrorMsg (maxTokensEnv : Option Nat) (errorMsg : String) : String :=
  let suggestion :=
    match extractAfford errorMsg with
    | some affordableTokens =>
      let suggestedMax := 7 * affordableTokens / 10
      "You can afford " ++ toString affordableTokens ++ " total tokens. " ++
        "Set MAX_TOKENS=" ++ toString suggestedMax ++ " (or lower like " ++
        toString (suggestedMax - 50) ++ ") to account for input tokens. "
    | none =>
      "Reduce MAX_TOKENS in .env file (currently set to " ++
        (match maxTokensEnv with | some v => toString v | none => "600") ++ "). " ++
        "Try setting MAX_TOKENS=400, 500, or 550. "
  "OpenRouter credit limit exceeded. " ++ suggestion ++
    "Or add credits at https://openrouter.ai/settings/credits\n" ++
    "Original error: " ++ errorMsg

/-- `RAGService.generateResponse`: the `try` body plus the outer `catch`,
which rewrites every error message (credit-limit errors specially, the rest
as `Failed to generate response: ...`). -/
def generateResponse (env : RagEnv) (docs : DocStore) (mem : MemoryState)
    (query : String) (context : Option (List Ctx)) (documentId : Option String)
    (workflowId : Option String) (conversationHistory : Option (List ChatMsg))
    (now : Nat) : Except String String × MemoryState :=
  match genRespInner env docs mem query context documentId workflowId conversationHistory now with
  | (.ok t, mem') => (.ok t, mem')
  | (.error errorMsg, mem') =>
    if strContains errorMsg "402" || strContains errorMsg "credits" ||
        strContains errorMsg "afford" then
      (.error (creditErrorMsg env.maxTokensEnv errorMsg), mem')
    else (.error ("Failed to generate response: " ++ errorMsg), mem')

/-! ## Workflow executor (`workflowService.ts`) -/

/-- Per-node free-form payload: the fields the executor actually reads from
`node.data` / `nodeData[node.id]`. -/
structure NodePayload where
  text : Option String
  documentId : Option String
deriving DecidableEq, Repr

structure Node where
  id : String
  type : String
  data : NodePayload
deriving DecidableEq, Repr

structure Edge where
  id : String
  source : String
  target : String
deriving DecidableEq, Repr

abbrev NodeData := List (String × NodePayload)

/-- Per-edge update of the `edges.forEach` loop of `buildExecutionOrder`:
append the target to the source's adjacency list and increment the target's
in-degree (`(inDegree.get(edge.target) || 0) + 1`). -/
def graphStep (p : List (String × List String) × List (String × ℤ)) (edge : Edge) :
    List (String × List String) × List (String × ℤ) :=
  (alSet edge.source ((alGet edge.source p.1).getD [] ++ [edge.target]) p.1,
   alSet edge.target ((alGet edge.target p.2).getD 0 + 1) p.2)

/-- Adjacency map, in-degree map (in `ℤ`: the JS decrement can go below
zero) and id→node map built by `buildExecutionOrder`. -/
def buildGraphMaps (nodes : List Node) (edges : List Edge) :
    List (String × List String) × List (String × ℤ) × List (String × Node) :=
  let graph0 := nodes.foldl (fun g n => alSet n.id [] g) []
  let inDegree0 : List (String × ℤ) := nodes.foldl (fun m n => alSet n.id 0 m) []
  let nodeMap := nodes.foldl (fun m n => alSet n.id n m) []
  let built := edges.foldl graphStep (graph0, inDegree0)
  (built.1, built.2, nodeMap)

/-- One node of the inner `for` loop of a level: decrement every successor's
in-degree, enqueueing those that reach exactly zero and are unprocessed. -/
def relaxSuccessors (connected : List String) (processed : List String)
    (inDegree : List (String × ℤ)) (queue : List String) :
    List (String × ℤ) × List String :=
  connected.foldl
    (fun (p : List (String × ℤ) × List String) connectedId =>
      let currentDegree := (alGet connectedId p.1).getD 0
      let inDegree' := alSet connectedId (currentDegree - 1) p.1
      if (alGet connectedId inDegree').getD 0 = 0 && !(processed.contains connectedId) then
        (inDegree', p.2 ++ [connectedId])
      else (inDegree', p.2))
    (inDegree, queue)

/-- The inner `for (i < currentLevelSize)` loop: shift `n` ids off the queue,
skipping processed or unknown ids, collecting a level. -/
def kahnLevel (graph : List (String × List String)) (nodeMap : List (String × Node)) :
    Nat → List String → List (String × ℤ) → List String → List Node →
    List Node × List String × List (String × ℤ) × List String
  | 0, queue, inDegree, processed, level => (level, queue, inDegree, processed)
  | n + 1, queue, inDegree, processed, level =>
    match queue with
    | [] => (level, [], inDegree, processed)
    | nodeId :: rest =>
      if processed.contains nodeId then kahnLevel graph nodeMap n rest inDegree processed level
      else
        match alGet nodeId nodeMap with
        | none => kahnLevel graph nodeMap n rest inDegree processed level
        | some node =>
          let processed' := nodeId :: processed
          let relaxed := relaxSuccessors ((alGet nodeId graph).getD []) processed' inDegree rest
          kahnLevel graph nodeMap n relaxed.2 relaxed.1 processed' (level ++ [node])

/-- The outer `while (queue.length > 0)` loop, run on fuel. Fuel exhaustion
returns the order built so far (every claim proved below is insensitive to
the fuel bound). -/
def kahnLoop (graph : List (String × List String)) (nodeMap : List (String × Node)) :
    Nat → List String → List (String × ℤ) → List String → List (List Node) →
    List (List Node)
  | 0, _, _, _, acc => acc
  | fuel + 1, queue, inDegree, processed, acc =>
    if queue.isEmpty then acc
    else
      match kahnLevel graph nodeMap queue.length queue inDegree processed [] with
      | (level, queue', inDegree', processed') =>
        kahnLoop graph nodeMap fuel queue' inDegree' processed'
          (if level.isEmpty then acc else acc ++ [level])

/-- `WorkflowService.buildExecutionOrder`: Kahn's algorithm, level by level,
seeded with the in-degree-zero ids in map order. -/
def buildExecutionOrder (nodes : List Node) (edges : List Edge) : List (List Node) :=
  match buildGraphMaps nodes edges with
  | (graph, inDegree, nodeMap) =>
    let queue := (inDegree.filter fun p => p.2 = 0).map (·.1)
    kahnLoop graph nodeMap (2 * (nodes.length + edges.length) + 1) queue inDegree [] []

/-- Rolling state of the sequential step execution. -/
structure StepState where
  currentQuery : String
  aggregatedContext : List Ctx
  allDocumentIds : List String
  stepsRag : List (String × Bool)
deriving Repr

/-- Workflow-level configuration: `MAX_CONTEXT_CHUNKS` (default 5) and
`MAX_TOTAL_CONTEXT_CHUNKS` (default 3); the rest lives in `RagEnv`. -/
structure WfEnv where
  rag : RagEnv
  maxContextChunks : Nat
  maxTotalContextChunks : Nat

/-- One node of the step-execution loop: `input` nodes set the active query,
`rag` nodes search; other node types are skipped. `stepsRag` records
`(nodeId, hasResult)` for the step summaries. -/
def processNode (env : WfEnv) (docs : DocStore) (nodeData : NodeData)
    (st : StepState) (node : Node) : Except String StepState :=
  if node.type = "input" then
    let currentQuery :=
      (jsOrS ((alGet node.id nodeData).bind (·.text)) node.data.text).getD ""
    if currentQuery = "" then .error "No query provided in input node"
    else .ok { st with currentQuery := currentQuery,
                       stepsRag := st.stepsRag ++ [(node.id, false)] }
  else if node.type = "rag" then
    let documentId :=
      (jsOrS ((alGet node.id nodeData).bind (·.documentId)) node.data.documentId).getD ""
    if documentId = "" then
      .error ("No document ID found in RAG node " ++ node.id ++ ". Please upload a PDF first.")
    else
      match search env.rag.embed env.rag.sqrtFn docs st.currentQuery documentId
          env.maxContextChunks with
      | .error e => .error e
      | .ok context =>
        .ok { currentQuery := st.currentQuery,
              aggregatedContext := st.aggregatedContext ++ context,
              allDocumentIds := st.allDocumentIds ++ [documentId],
              stepsRag := st.stepsRag ++ [(node.id, true)] }
  else .ok st

/-- The nested `for (stepNodes of executionOrder) for (node of stepNodes)`
loop, aborting on the first error. -/
def processNodes (env : WfEnv) (docs : DocStore) (nodeData : NodeData) :
    List Node → StepState → Except String StepState
  | [], st => .ok st
  | node :: rest, st =>
    match processNode env docs nodeData st node with
    | .error e => .error e
    | .ok st' => processNodes env docs nodeData rest st'

/-- Result payload of a successful workflow run. -/
structure WorkflowResult where
  query : String
  response : String
  context : List String
  contextSources : Nat
  stepsRag : List (String × Bool)
  outputNodeId : String
  sessionId : String
deriving Repr

/-- Body of the `try` block of `WorkflowService.executeWorkflow`. -/
def executeWorkflowInner (env : WfEnv) (docs : DocStore) (mem : MemoryState)
    (nodes : List Node) (edges : List Edge) (nodeData : NodeData)
    (workflowId : Option String) (now : Nat) :
    Except String WorkflowResult × MemoryState :=
  let sessionId := (jsOrS workflowId (some ("workflow-" ++ toString now))).getD ""
  let executionOrder := buildExecutionOrder nodes edges
  if executionOrder.length = 0 then
    (.error "No valid execution path found. Ensure nodes are properly connected.", mem)
  else
    match processNodes env docs nodeData executionOrder.flatten
        { currentQuery := "", aggregatedContext := [], allDocumentIds := [], stepsRag := [] } with
    | .error e => (.error e, mem)
    | .ok st =>
      let historyMessages :=
        getConversationHistory mem sessionId env.rag.maxHistoryMessages
      let conversationHistory : List ChatMsg :=
        (historyMessages.filter fun m => !(m.role == Role.system)).map
          fun m => { role := m.role, content := m.content }
      let primaryDocumentId := st.allDocumentIds.head?
      let uniqueContext := deduplicateContext st.aggregatedContext
      match generateResponse env.rag docs mem st.currentQuery
          (some (uniqueContext.take env.maxTotalContextChunks)) primaryDocumentId
          (some sessionId) (some conversationHistory) now with
      | (.error e, mem') => (.error e, mem')
      | (.ok response, mem') =>
        match nodes.find? (fun n => n.type == "output") with
        | none => (.error "Output node not found", mem')
        | some outputNode =>
          (.ok { query := st.currentQuery,
                 response := response,
                 context := (uniqueContext.take 5).map (·.text),
                 contextSources := st.allDocumentIds.length,
                 stepsRag := st.stepsRag,
                 outputNodeId := outputNode.id,
                 sessionId := sessionId }, mem')

/-- `WorkflowService.executeWorkflow`: the `try` body with the `catch` that
wraps every error as `Workflow execution failed: ...` (memory mutations made
before the throw persist). -/
def executeWorkflow (env : WfEnv) (docs : DocStore) (mem : MemoryState)
    (nodes : List Node) (edges : List Edge) (nodeData : NodeData)
    (workflowId : Option String) (now : Nat) :
    Except String WorkflowResult × MemoryState :=
  match executeWorkflowInner env docs mem nodes edges nodeData workflowId now with
  | (.ok r, mem') => (.ok r, mem')
  | (.error e, mem') => (.error ("Workflow execution failed: " ++ e), mem')

/-! ## PDF chunker (`pdfService.ts`, `splitIntoChunks`)

The chunker is modelled on `List Char` (a JS string is a sequence of code
units) so that the split / trim / substring reasoning is elementary. -/

/-- JS `\s` (the members that can occur here; the full class also contains
rarer Unicode space separators, none of which the claims exercise). -/
def jsWs (c : Char) : Bool :=
  c = ' ' || c = '\t' || c = '\n' || c = '\r' || c = '\x0b' || c = '\x0c' || c = '\xa0'

/-- Sentence-terminal punctuation of the split regex `[.!?]+\s+`. -/
def isSentPunct (c : Char) : Bool :=
  c = '.' || c = '!' || c = '?'

/-- `trimStart`. -/
def trimL (l : List Char) : List Char := l.dropWhile jsWs

/-- `trimEnd`. -/
def trimR (l : List Char) : List Char := (l.reverse.dropWhile jsWs).reverse

/-- JS `String.prototype.trim`. -/
def jsTrim (l : List Char) : List Char := trimR (trimL l)

/-- Does a match of `[.!?]+\s+` start at the head of `l`? (The regex needs
no backtracking: a maximal punctuation run must be followed by whitespace.) -/
def punctThenWs (l : List Char) : Bool :=
  match l with
  | [] => false
  | c :: _ =>
    isSentPunct c &&
      (match (l.dropWhile isSentPunct).head? with
       | some d => jsWs d
       | none => false)

/-- `text.split(/[.!?]+\s+/)`: scan left to right; at each leftmost match
emit the accumulated fragment and consume the maximal punctuation run plus
the maximal whitespace run. -/
def splitSentencesAux (l : List Char) (acc : List Char) : List (List Char) :=
  match l with
  | [] => [acc.reverse]
  | c :: rest =>
    if h : punctThenWs (c :: rest) then
      acc.reverse ::
        splitSentencesAux (((c :: rest).dropWhile isSentPunct).dropWhile jsWs) []
    else
      splitSentencesAux rest (c :: acc)
termination_by l.length
decreasing_by
  · simp only [punctThenWs, Bool.and_eq_true] at h
    have h1 : List.dropWhile isSentPunct (c :: rest) = List.dropWhile isSentPunct rest := by
      simp [List.dropWhile, h.1]
    calc (((c :: rest).dropWhile isSentPunct).dropWhile jsWs).length
        ≤ ((c :: rest).dropWhile isSentPunct).length := (List.dropWhile_suffix _).length_le
      _ = (List.dropWhile isSentPunct rest).length := by rw [h1]
      _ ≤ rest.length := (List.dropWhile_suffix _).length_le
      _ < (c :: rest).length := by simp
  · simp

def splitSentences (text : List Char) : List (List Char) :=
  splitSentencesAux text []

/-- `s.split(/\s+/)`. -/
def splitWsAux (l : List Char) (acc : List Char) : List (List Char) :=
  match l with
  | [] => [acc.reverse]
  | c :: rest =>
    if jsWs c then acc.reverse :: splitWsAux (rest.dropWhile jsWs) []
    else splitWsAux rest (c :: acc)
termination_by l.length
decreasing_by
  · calc (rest.dropWhile jsWs).length ≤ rest.length := (List.dropWhile_suffix _).length_le
      _ < (c :: rest).length := by simp
  · simp

def splitWsList (s : List Char) : List (List Char) :=
  splitWsAux s []

/-- `words.join(' ')`. -/
def joinSpace (words : List (List Char)) : List Char :=
  List.intercalate [' '] words

structure ChunkState where
  chunks : List (List Char)
  current : List Char
deriving Repr

/-- Body of the `for (sentence of sentences)` loop: flush the buffer (with
word overlap seeding the next buffer) when the next sentence would overflow
`chunkSize`, else append the sentence with a single-space separator. -/
def chunkStep (chunkSize overlap : Nat) (st : ChunkState) (sentence : List Char) :
    ChunkState :=
  if chunkSize < st.current.length + sentence.length ∧ 0 < st.current.length then
    let words := splitWsList st.current
    let overlapWords := jsSliceNeg (overlap / 10) words
    { chunks := st.chunks ++ [jsTrim st.current],
      current := joinSpace overlapWords ++ ' ' :: sentence }
  else
    { st with current := st.current ++ (if st.current.isEmpty then sentence else ' ' :: sentence) }

/-- `PDFService.splitIntoChunks` (default arguments `chunkSize = 1000`,
`overlap = 200`): sentence split, greedy accumulation, final flush of a
non-whitespace buffer, and removal of empty chunks. -/
def splitIntoChunks (text : List Char) (chunkSize : Nat := 1000) (overlap : Nat := 200) :
    List (List Char) :=
  let sentences := splitSentences text
  let st := sentences.foldl (chunkStep chunkSize overlap) { chunks := [], current := [] }
  let chunks :=
    if (jsTrim st.current).isEmpty then st.chunks else st.chunks ++ [jsTrim st.current]
  chunks.filter fun chunk => 0 < chunk.length

/-! ## Proof-side helpers and concrete fixtures -/

/-- The last `MAX_MESSAGES_PER_SESSION` messages (a closed form for the
message cap enforced by `addMessage`). -/
def capMessages (l : List ConversationMessage) : List ConversationMessage :=
  (l.reverse.take MAX_MESSAGES_PER_SESSION).reverse

/-- The message `addMessage` builds from one `(now, role, content)` call. -/
def addToMsg (a : Nat × Role × String) : ConversationMessage :=
  { role := a.2.1, content := a.2.2, timestamp := a.1 }

/-- A sequence of `addMessage` calls against one session id. -/
def applyAdds (wf : String) (adds : List (Nat × Role × String)) (st : MemoryState) :
    MemoryState :=
  adds.foldl (fun m a => addMessage m a.1 wf a.2.1 a.2.2) st

/-- Number of edges pointing at a node id (the in-degree of a well-formed
graph), as an integer for comparison with the mutable in-degree counter. -/
def countTargets (k : String) (es : List Edge) : ℤ :=
  ((es.filter fun e => e.target = k).length : ℤ)

/-- Embedding environment with no client at all. -/
def envNoClients : EmbedEnv :=
  { geminiEmbed := none, openaiEmbed := none,
    embeddingModel := "text-embedding-004", openaiKey := none }

/-- Both embedding providers present and failing. -/
def envBothFail : EmbedEnv :=
  { geminiEmbed := some fun _ => .error "gemini down",
    openaiEmbed := some fun _ => .error "openai down",
    embeddingModel := "text-embedding-004", openaiKey := some "sk-test" }

/-- A Gemini embedding client that returns the one-dimensional vector `[1]`. -/
def envEmbedOne : EmbedEnv :=
  { geminiEmbed := some fun _ => .ok [(1 : ℚ)], openaiEmbed := none,
    embeddingModel := "text-embedding-004", openaiKey := none }

/-- One stored document whose chunk embedding is two-dimensional. -/
def docsMismatch : DocStore :=
  [("d", { id := "d", chunks := [{ text := "t", embedding := [(1 : ℚ), 2] }] })]

/-- A session last accessed at time 1 holding two messages. -/
def sessOld : ConversationSession :=
  { sessionId := "wf", documentId := none,
    messages := [{ role := Role.user, content := "hello", timestamp := 0 },
                 { role := Role.assistant, content := "answer", timestamp := 1 }],
    createdAt := 0, lastAccessed := 1 }

def memOld : MemoryState := [("wf", sessOld)]

/-- A RAG environment whose only chat provider is a Gemini client that
answers `"Answer"`. -/
def ragEnvGemini : RagEnv :=
  { geminiChat := some fun _ _ _ => .ok "Answer",
    openaiChat := none, openRouterChat := none,
    chatModelEnv := none, maxTokensEnv := none,
    maxChunkLength := 600, maxHistoryMessages := 5,
    embed := envNoClients, sqrtFn := fun _ => 0 }

def wfEnvGemini : WfEnv :=
  { rag := ragEnvGemini, maxContextChunks := 5, maxTotalContextChunks := 3 }

/-- A single input node carrying the query `"Q"`. -/
def nodeInput : Node :=
  { id := "n1", type := "input", data := { text := some "Q", documentId := none } }

/-- Nodes `A` and `B` joined in a two-cycle: no node has in-degree 0. -/
def nodeA : Node := { id := "A", type := "input", data := { text := some "Q", documentId := none } }

def nodeB : Node := { id := "B", type := "output", data := { text := none, documentId := none } }

def edgeAB : Edge := { id := "e1", source := "A", target := "B" }

def edgeBA : Edge := { id := "e2", source := "B", target := "A" }

/-- The memory state after appending the pair `("Q", "Answer")` at time 7 to
a fresh store. -/
def sessQA : ConversationSession :=
  { sessionId := "wf", documentId := none,
    messages := [{ role := Role.user, content := "Q", timestamp := 7 },
                 { role := Role.assistant, content := "Answer", timestamp := 7 }],
    createdAt := 7, lastAccessed := 7 }

def memQA : MemoryState := [("wf", sessQA)]

/-! # Theorems

First general lemmas about the association-list map operations and the
effectful helpers, then one theorem per claim (with witnesses and
counterexamples where required). -/

theorem alGet_alSet_self {α : Type} (k : String) (v : α) (m : List (String × α)) :
    alGet k (alSet k v m) = some v := by
  induction m with
  | nil => simp [alSet, alGet]
  | cons p rest ih =>
    obtain ⟨k', v'⟩ := p
    by_cases h : k' = k
    · simp [alSet, alGet, h]
    · simp [alSet, alGet, h, ih]

theorem alGet_alUpd {α : Type} (k : String) (v : α) (m : List (String × α)) :
    alGet k (alUpd k v m) = (alGet k m).map (fun _ => v) := by
  induction m with
  | nil => simp [alUpd, alGet]
  | cons p rest ih =>
    obtain ⟨k', v'⟩ := p
    by_cases h : k' = k
    · simp [alUpd, alGet, h]
    · simp [alUpd, alGet, h, ih]

theorem mapExcept_error_uniform {α β : Type} (f : α → Except String β) (E : String)
    (hu : ∀ a e, f a = .error e → e = E) (l : List α) (a : α) (ha : a ∈ l)
    (e : String) (hfa : f a = .error e) : mapExcept f l = .error E := by
  induction l with
  | nil => cases ha
  | cons x rest ih =>
    unfold mapExcept
    cases hfx : f x with
    | error e' => rw [hu x e' hfx]
    | ok b =>
      rcases List.mem_cons.mp ha with rfl | hmem
      · rw [hfx] at hfa; cases hfa
      · rw [ih hmem]

/-- C2: when embedding generation fails, `addDocument` fails by propagating
that error (wrapped in its descriptive prefix) and the document map is
returned unchanged — in particular nothing is stored under the given id. -/
theorem C2_addDocument_atomic (env : EmbedEnv) (docs : DocStore) (documentId : String)
    (chunks : List String) (e : String)
    (h : generateEmbeddings env chunks = .error e) :
    addDocument env docs documentId chunks =
      (.error ("Failed to add document to vector store: " ++ e), docs) ∧
    (addDocument env docs documentId chunks).2 = docs ∧
    alGet documentId (addDocument env docs documentId chunks).2 = alGet documentId docs := by
  unfold addDocument
  rw [h]
  exact ⟨rfl, rfl, rfl⟩

theorem C2_addDocument_atomic_wit :
    addDocument envNoClients [] "doc1" ["x"] =
      (.error ("Failed to add document to vector store: " ++
        "No API client available for embeddings"), ([] : DocStore)) ∧
    (addDocument envNoClients [] "doc1" ["x"]).2 = ([] : DocStore) ∧
    alGet "doc1" (addDocument envNoClients [] "doc1" ["x"]).2 =
      alGet "doc1" ([] : DocStore) :=
  C2_addDocument_atomic envNoClients [] "doc1" ["x"]
    "No API client available for embeddings" rfl

theorem capMessages_eq_drop (l : List ConversationMessage) :
    capMessages l = l.drop (l.length - MAX_MESSAGES_PER_SESSION) := by
  unfold capMessages
  have h := List.reverse_drop (l := l) (n := l.length - MAX_MESSAGES_PER_SESSION)
  have htake : l.reverse.take MAX_MESSAGES_PER_SESSION =
      l.reverse.take (l.length - (l.length - MAX_MESSAGES_PER_SESSION)) := by
    apply List.take_eq_take.mpr
    simp only [List.length_reverse]
    omega
  rw [htake, ← h, List.reverse_reverse]

theorem capMessages_length_le (l : List ConversationMessage) :
    (capMessages l).length ≤ MAX_MESSAGES_PER_SESSION := by
  unfold capMessages
  simp only [List.length_reverse, List.length_take]
  omega

theorem capMessages_of_le (l : List ConversationMessage)
    (h : l.length ≤ MAX_MESSAGES_PER_SESSION) : capMessages l = l := by
  rw [capMessages_eq_drop, Nat.sub_eq_zero_of_le h, List.drop_zero]

theorem take_append_take {α : Type} (a b : List α) (n : Nat) :
    (a ++ b.take n).take n = (a ++ b).take n := by
  rw [List.take_append_eq_append_take, List.take_append_eq_append_take, List.take_take]
  congr 1
  rw [Nat.min_eq_left (by omega)]

theorem capMessages_append (l l2 : List ConversationMessage) :
    capMessages (capMessages l ++ l2) = capMessages (l ++ l2) := by
  unfold capMessages
  rw [List.reverse_append, List.reverse_reverse, List.reverse_append,
    take_append_take]

/-- The message-list update performed by `addMessage` is exactly the
last-`MAX_MESSAGES_PER_SESSION` window. -/
theorem addMessage_msgs_eq_cap (pushed : List ConversationMessage) :
    (if MAX_MESSAGES_PER_SESSION < pushed.length then
      jsSliceNeg MAX_MESSAGES_PER_SESSION pushed
    else pushed) = capMessages pushed := by
  rw [capMessages_eq_drop]
  by_cases h : MAX_MESSAGES_PER_SESSION < pushed.length
  · rw [if_pos h]
    unfold jsSliceNeg
    rw [if_neg (by unfold MAX_MESSAGES_PER_SESSION; omega)]
  · rw [if_neg h]
    have : pushed.length - MAX_MESSAGES_PER_SESSION = 0 := by omega
    rw [this, List.drop_zero]

theorem addMessage_single (wf : String) (sess : ConversationSession)
    (now : Nat) (r : Role) (c : String) :
    addMessage [(wf, sess)] now wf r c =
      [(wf, { sess with
        messages := capMessages (sess.messages ++ [{ role := r, content := c, timestamp := now }]),
        lastAccessed := now })] := by
  simp only [addMessage, getSession, alGet, if_pos rfl, jsTruthyS, Bool.false_and,
    Bool.and_false]
  rw [addMessage_msgs_eq_cap]
  simp [alUpd, alSet]

theorem addMessage_empty (wf : String) (now : Nat) (r : Role) (c : String) :
    addMessage [] now wf r c =
      [(wf, { sessionId := wf, documentId := none,
              messages := [{ role := r, content := c, timestamp := now }],
              createdAt := now, lastAccessed := now })] := by
  simp [addMessage, getSession, alGet, alSet, alUpd, cleanupOldSessions,
    MAX_SESSIONS, MAX_MESSAGES_PER_SESSION, jsSliceNeg]

theorem getAll_applyAdds_single (wf : String) (adds : List (Nat × Role × String)) :
    ∀ sess : ConversationSession, sess.messages.length ≤ MAX_MESSAGES_PER_SESSION →
      getAllMessages (applyAdds wf adds [(wf, sess)]) wf =
        capMessages (sess.messages ++ adds.map addToMsg) := by
  induction adds with
  | nil =>
    intro sess hle
    simp only [applyAdds, List.foldl_nil, List.map_nil, List.append_nil]
    rw [capMessages_of_le sess.messages hle]
    simp [getAllMessages, alGet]
  | cons a rest ih =>
    intro sess hle
    have hstep : applyAdds wf (a :: rest) [(wf, sess)] =
        applyAdds wf rest (addMessage [(wf, sess)] a.1 wf a.2.1 a.2.2) := rfl
    rw [hstep, addMessage_single]
    rw [ih _ (capMessages_length_le _)]
    simp only [List.map_cons]
    rw [capMessages_append]
    rw [List.append_assoc]
    rfl

/-- C7: the per-session message cap. (1) After any `addMessage` call, the
touched session holds at most `MAX_MESSAGES_PER_SESSION` (20) messages.
(2) For any sequence of `addMessage` calls against a fresh store, the
session holds exactly the most recently added 20 messages, in insertion
order (the last-20 window of the full insertion sequence). -/
theorem C7_message_cap :
    (∀ (st : MemoryState) (now : Nat) (wf : String) (r : Role) (c : String),
      (getAllMessages (addMessage st now wf r c) wf).length ≤ MAX_MESSAGES_PER_SESSION) ∧
    (∀ (wf : String) (adds : List (Nat × Role × String)),
      getAllMessages (applyAdds wf adds []) wf = capMessages (adds.map addToMsg)) := by
  constructor
  · intro st now wf r c
    simp only [addMessage, getAllMessages]
    rw [addMessage_msgs_eq_cap, alGet_alUpd]
    rcases alGet wf (getSession st now wf none).2 with _ | s0
    · simp
    · simpa using capMessages_length_le _
  · intro wf adds
    cases adds with
    | nil => rfl
    | cons a rest =>
      have hstep : applyAdds wf (a :: rest) [] =
          applyAdds wf rest (addMessage [] a.1 wf a.2.1 a.2.2) := rfl
      rw [hstep, addMessage_empty, getAll_applyAdds_single wf rest _ (by simp [MAX_MESSAGES_PER_SESSION])]
      simp only [List.map_cons]
      rfl

/-- C6 counterexample: a session idle for far longer than the 30-minute
timeout (last access 1, current time 10^9 ms) is not treated as absent:
`getConversationHistory` still returns its stored messages. -/
theorem C6_counterexample :
    SESSION_TIMEOUT < 1000000000 - sessOld.lastAccessed ∧
    getConversationHistory memOld "wf" 5 =
      [{ role := Role.user, content := "hello", timestamp := 0 }] := by
  refine ⟨by decide, ?_⟩
  rfl

/-- C6 amended: `getConversationHistory` performs no expiry check — a session
idle past the timeout is still returned (nonempty whenever it holds at least
two messages and at least one message is requested); idle sessions are only
purged by `cleanupOldSessions`, which does nothing while the session count
is within `MAX_SESSIONS`. -/
theorem C6_expiry_amended :
    (∀ (st : MemoryState) (wf : String) (s : ConversationSession) (maxMessages now : Nat),
      alGet wf st = some s → 2 ≤ s.messages.length → 1 ≤ maxMessages →
      SESSION_TIMEOUT < now - s.lastAccessed →
      getConversationHistory st wf maxMessages ≠ []) ∧
    (∀ (st : MemoryState) (now : Nat), st.length ≤ MAX_SESSIONS →
      cleanupOldSessions st now = st) := by
  constructor
  · intro st wf s maxMessages now hget hlen _hmax _hexp
    unfold getConversationHistory
    have hne : ¬s.messages = [] := by
      intro hnil; rw [hnil] at hlen; simp at hlen
    simp only [hget]
    rw [if_neg hne]
    intro hcontra
    have := congrArg List.length hcontra
    simp [List.length_drop, List.length_take] at this
    omega
  · intro st now h
    unfold cleanupOldSessions
    rw [if_pos h]

theorem C6_expiry_amended_wit :
    getConversationHistory memOld "wf" 5 ≠ [] :=
  C6_expiry_amended.1 memOld "wf" sessOld 5 1000000000 rfl (by decide) (by decide)
    (by decide)

/-- C10: `cosineSimilarity` fails exactly on a dimension mismatch (and with
no other message), and a `search` whose query embedding dimension differs
from some stored chunk embedding fails with the wrapped mismatch error
instead of returning scores. -/
theorem C10_cosine_dimension :
    (∀ (sq : ℚ → ℚ) (vecA vecB : List ℚ),
      (∃ e, cosineSimilarity sq vecA vecB = .error e) ↔ vecA.length ≠ vecB.length) ∧
    (∀ (sq : ℚ → ℚ) (vecA vecB : List ℚ) (e : String),
      cosineSimilarity sq vecA vecB = .error e → e = "Vectors must have the same length") ∧
    (∀ (env : EmbedEnv) (sq : ℚ → ℚ) (docs : DocStore) (query documentId : String)
      (topK : Nat) (document : Document) (q : List ℚ),
      alGet documentId docs = some document →
      generateEmbeddings env [query] = .ok [q] →
      (∃ chunk ∈ document.chunks, chunk.embedding.length ≠ q.length) →
      search env sq docs query documentId topK =
        .error "Failed to search vector store: Vectors must have the same length") := by
  refine ⟨?_, ?_, ?_⟩
  · intro sq vecA vecB
    constructor
    · rintro ⟨e, he⟩
      intro heq
      unfold cosineSimilarity at he
      rw [if_neg (fun hc : vecA.length ≠ vecB.length => hc heq)] at he
      cases he
    · intro hne
      exact ⟨"Vectors must have the same length", by unfold cosineSimilarity; rw [if_pos hne]⟩
  · intro sq vecA vecB e he
    unfold cosineSimilarity at he
    by_cases hne : vecA.length ≠ vecB.length
    · rw [if_pos hne] at he; cases he; rfl
    · rw [if_neg hne] at he; cases he
  · intro env sq docs query documentId topK document q hget hemb hex
    obtain ⟨chunk, hmem, hlen⟩ := hex
    unfold search
    have hmap : mapExcept
        (fun chunk =>
          (cosineSimilarity sq ([q].getD 0 []) chunk.embedding).map
            fun score => ({ text := chunk.text, score := score } : Ctx))
        document.chunks = .error "Vectors must have the same length" := by
      apply mapExcept_error_uniform _ _ ?_ _ chunk hmem "Vectors must have the same length"
      · show (cosineSimilarity sq ([q].getD 0 []) chunk.embedding).map _ = _
        have : cosineSimilarity sq ([q].getD 0 []) chunk.embedding =
            .error "Vectors must have the same length" := by
          unfold cosineSimilarity
          rw [if_pos (by simpa using fun hc => hlen hc.symm)]
        rw [this]; rfl
      · intro a e hae
        rcases hcs : cosineSimilarity sq ([q].getD 0 []) a.embedding with e' | v
        · rw [hcs] at hae
          cases hae
          unfold cosineSimilarity at hcs
          by_cases hne : ([q].getD 0 []).length ≠ a.embedding.length
          · rw [if_pos hne] at hcs; cases hcs; rfl
          · rw [if_neg hne] at hcs; cases hcs
        · rw [hcs] at hae; cases hae
    simp only [hget, hemb, hmap]
    rfl

theorem alSet_length_of_none {α : Type} (k : String) (v : α) (m : List (String × α))
    (h : alGet k m = none) : (alSet k v m).length = m.length + 1 := by
  induction m with
  | nil => simp [alSet]
  | cons p rest ih =>
    obtain ⟨k', v'⟩ := p
    by_cases hk : k' = k
    · simp [alGet, hk] at h
    · simp only [alGet, if_neg hk] at h
      simp [alSet, hk, ih h]

theorem cleanup_noop (st : MemoryState) (now : Nat) (h : st.length ≤ MAX_SESSIONS) :
    cleanupOldSessions st now = st := by
  unfold cleanupOldSessions
  rw [if_pos h]

/-- After `addMessage` on an existing session, the session holds the capped
extension of its previous messages. -/
theorem addMessage_present (st : MemoryState) (wf : String) (s : ConversationSession)
    (hs : alGet wf st = some s) (now : Nat) (r : Role) (c : String) :
    alGet wf (addMessage st now wf r c) =
      some { s with
        messages := capMessages (s.messages ++ [{ role := r, content := c, timestamp := now }]),
        lastAccessed := now } := by
  simp only [addMessage, getSession, hs, jsTruthyS, Bool.false_and, Bool.and_false]
  rw [addMessage_msgs_eq_cap, alGet_alUpd, alGet_alSet_self]
  rfl

/-- After `addMessage` on an absent session in a store below the session cap,
the session exists and holds exactly the new message. -/
theorem addMessage_absent_small (st : MemoryState) (wf : String)
    (hs : alGet wf st = none) (hlen : st.length < MAX_SESSIONS)
    (now : Nat) (r : Role) (c : String) :
    alGet wf (addMessage st now wf r c) =
      some { sessionId := wf, documentId := none,
             messages := [{ role := r, content := c, timestamp := now }],
             createdAt := now, lastAccessed := now } := by
  simp only [addMessage, getSession, hs]
  rw [cleanup_noop _ _ (by rw [alSet_length_of_none _ _ _ hs]; omega)]
  rw [addMessage_msgs_eq_cap, alGet_alUpd, alGet_alSet_self]
  simp [capMessages, MAX_MESSAGES_PER_SESSION]

theorem capMessages_append_two (l : List ConversationMessage)
    (u a : ConversationMessage) :
    ∃ pre, capMessages (l ++ [u, a]) = pre ++ [u, a] := by
  rw [capMessages_eq_drop]
  refine ⟨l.drop ((l ++ [u, a]).length - MAX_MESSAGES_PER_SESSION), ?_⟩
  rw [List.drop_append_eq_append_drop]
  have h0 : (l ++ [u, a]).length - MAX_MESSAGES_PER_SESSION - l.length = 0 := by
    simp only [List.length_append, List.length_cons, List.length_nil]
    unfold MAX_MESSAGES_PER_SESSION
    omega
  rw [h0, List.drop_zero]

/-- A successful `commitToMemory` with a truthy workflow id appends the user
query then the response. -/
theorem commit_ok (mem : MemoryState) (now : Nat) (wf : String) (query t resp : String)
    (mem' : MemoryState) (hwf : wf ≠ "")
    (h : commitToMemory mem now (some wf) query t = (.ok resp, mem')) :
    mem' = addMessage (addMessage mem now wf Role.user query) now wf Role.assistant resp := by
  have htr : jsTruthyS (some wf) = true := by simp [jsTruthyS, hwf]
  unfold commitToMemory at h
  rw [htr, if_pos rfl] at h
  have h1 : Except.ok (ε := String) t = .ok resp := congrArg Prod.fst h
  have h2 := congrArg Prod.snd h
  cases h1
  simpa using h2.symm

/-- Every successful path of the OpenAI/OpenRouter fallback commits the
user/assistant pair to memory. -/
theorem genRespFallback_ok (env : RagEnv) (mem : MemoryState) (query : String)
    (wf : String) (messages : List ChatMsg) (now : Nat) (resp : String)
    (mem' : MemoryState) (hwf : wf ≠ "")
    (h : genRespFallback env mem query (some wf) messages now = (.ok resp, mem')) :
    mem' = addMessage (addMessage mem now wf Role.user query) now wf Role.assistant resp := by
  unfold genRespFallback at h
  repeat
    first
    | exact commit_ok _ _ _ _ _ _ _ hwf h
    | split at h
    | simp at h

/-- Every successful path of `genRespInner` (Gemini, OpenAI or OpenRouter)
commits the user/assistant pair to memory. -/
theorem genRespInner_ok (env : RagEnv) (docs : DocStore) (mem : MemoryState)
    (query : String) (context : Option (List Ctx)) (documentId : Option String)
    (wf : String) (conversationHistory : Option (List ChatMsg)) (now : Nat)
    (resp : String) (mem' : MemoryState) (hwf : wf ≠ "")
    (h : genRespInner env docs mem query context documentId (some wf)
      conversationHistory now = (.ok resp, mem')) :
    mem' = addMessage (addMessage mem now wf Role.user query) now wf Role.assistant resp := by
  unfold genRespInner at h
  repeat
    first
    | exact commit_ok _ _ _ _ _ _ _ hwf h
    | exact genRespFallback_ok _ _ _ _ _ _ _ _ hwf h
    | split at h
    | simp at h

/-- C8: whenever `generateResponse` succeeds with a (truthy) session id
present, the memory update is exactly two `addMessage` calls: the user query
first, then the assistant answer. Moreover (below the global session cap)
the session's stored messages become the capped extension by exactly
`[user query, assistant answer]`, so its last two messages are that pair in
order. -/
theorem C8_memory_append (env : RagEnv) (docs : DocStore) (mem : MemoryState)
    (query : String) (context : Option (List Ctx)) (documentId : Option String)
    (wf : String) (conversationHistory : Option (List ChatMsg)) (now : Nat)
    (resp : String) (mem' : MemoryState) (hwf : wf ≠ "")
    (h : generateResponse env docs mem query context documentId (some wf)
      conversationHistory now = (.ok resp, mem')) :
    mem' = addMessage (addMessage mem now wf Role.user query) now wf Role.assistant resp ∧
    (mem.length < MAX_SESSIONS →
      getAllMessages mem' wf = capMessages (getAllMessages mem wf ++
        [{ role := Role.user, content := query, timestamp := now },
         { role := Role.assistant, content := resp, timestamp := now }]) ∧
      ∃ pre, getAllMessages mem' wf = pre ++
        [{ role := Role.user, content := query, timestamp := now },
         { role := Role.assistant, content := resp, timestamp := now }]) := by
  have hmain : mem' = addMessage (addMessage mem now wf Role.user query) now wf
      Role.assistant resp := by
    unfold generateResponse at h
    split at h
    next t m heq =>
      have h1 : Except.ok (ε := String) t = .ok resp := congrArg Prod.fst h
      have h2 : m = mem' := congrArg Prod.snd h
      cases h1; cases h2
      exact genRespInner_ok _ _ _ _ _ _ _ _ _ _ _ hwf heq
    next msg m heq =>
      split at h <;> exact Except.noConfusion (congrArg Prod.fst h)
  refine ⟨hmain, fun hsmall => ?_⟩
  have hall : getAllMessages mem' wf = capMessages (getAllMessages mem wf ++
      [{ role := Role.user, content := query, timestamp := now },
       { role := Role.assistant, content := resp, timestamp := now }]) := by
    rcases hmem : alGet wf mem with _ | s
    · have h1 := addMessage_absent_small mem wf hmem hsmall now Role.user query
      have h2 := addMessage_present _ wf _ h1 now Role.assistant resp
      rw [hmain]
      simp only [getAllMessages, h2, hmem]
      rfl
    · have h1 := addMessage_present mem wf s hmem now Role.user query
      have h2 := addMessage_present _ wf _ h1 now Role.assistant resp
      rw [hmain]
      simp only [getAllMessages, h2, hmem]
      rw [capMessages_append, List.append_assoc]
      rfl
  exact ⟨hall, hall ▸ capMessages_append_two _ _ _⟩

theorem C8_memory_append_wit :
    memQA = addMessage (addMessage [] 7 "wf" Role.user "Q") 7 "wf" Role.assistant "Answer" ∧
    (([] : MemoryState).length < MAX_SESSIONS →
      getAllMessages memQA "wf" = capMessages (getAllMessages [] "wf" ++
        [{ role := Role.user, content := "Q", timestamp := 7 },
         { role := Role.assistant, content := "Answer", timestamp := 7 }]) ∧
      ∃ pre, getAllMessages memQA "wf" = pre ++
        [{ role := Role.user, content := "Q", timestamp := 7 },
         { role := Role.assistant, content := "Answer", timestamp := 7 }]) :=
  C8_memory_append ragEnvGemini [] [] "Q" (some []) none "wf" (some []) 7 "Answer"
    memQA (by decide) rfl

theorem alGet_alSet_ne {α : Type} (k k' : String) (v : α) (m : List (String × α))
    (h : k' ≠ k) : alGet k (alSet k' v m) = alGet k m := by
  induction m with
  | nil => simp [alSet, alGet, h]
  | cons p rest ih =>
    obtain ⟨k'', v''⟩ := p
    by_cases hk : k'' = k'
    · subst hk
      simp [alSet, alGet, h]
    · simp only [alSet, if_neg hk]
      by_cases hk2 : k'' = k
      · simp [alGet, hk2]
      · simp [alGet, hk2, ih]

theorem alGet_mem {α : Type} (k : String) (v : α) (m : List (String × α))
    (h : alGet k m = some v) : (k, v) ∈ m := by
  induction m with
  | nil => simp [alGet] at h
  | cons p rest ih =>
    obtain ⟨k', v'⟩ := p
    by_cases hk : k' = k
    · subst hk
      have hv : v' = v := by simpa [alGet] using h
      subst hv
      exact List.mem_cons_self _ _
    · simp only [alGet, if_neg hk] at h
      exact List.mem_cons_of_mem _ (ih h)

theorem mem_alSet {α : Type} (p : String × α) (k : String) (v : α)
    (m : List (String × α)) (h : p ∈ alSet k v m) : p = (k, v) ∨ p ∈ m := by
  induction m with
  | nil => simpa [alSet] using h
  | cons q rest ih =>
    obtain ⟨k', v'⟩ := q
    by_cases hk : k' = k
    · simp only [alSet, if_pos hk] at h
      rcases List.mem_cons.mp h with rfl | hmem
      · exact Or.inl rfl
      · exact Or.inr (List.mem_cons_of_mem _ hmem)
    · simp only [alSet, if_neg hk] at h
      rcases List.mem_cons.mp h with rfl | hmem
      · exact Or.inr (List.mem_cons_self _ _)
      · rcases ih hmem with h1 | h2
        · exact Or.inl h1
        · exact Or.inr (List.mem_cons_of_mem _ h2)

theorem alSet_keys_nodup {α : Type} (k : String) (v : α) (m : List (String × α))
    (h : (m.map Prod.fst).Nodup) : ((alSet k v m).map Prod.fst).Nodup := by
  induction m with
  | nil => simp [alSet]
  | cons q rest ih =>
    obtain ⟨k', v'⟩ := q
    simp only [List.map_cons, List.nodup_cons] at h
    by_cases hk : k' = k
    · subst hk
      rw [show alSet k' v ((k', v') :: rest) = (k', v) :: rest from by simp [alSet]]
      simp only [List.map_cons, List.nodup_cons]
      exact h
    · simp only [alSet, if_neg hk, List.map_cons, List.nodup_cons]
      refine ⟨?_, ih h.2⟩
      intro hc
      rcases List.mem_map.mp hc with ⟨p, hp, hpk⟩
      rcases mem_alSet p k v rest hp with rfl | hmem
      · exact hk hpk.symm
      · exact h.1 (List.mem_map.mpr ⟨p, hmem, hpk⟩)

theorem alGet_eq_of_mem_nodup {α : Type} (m : List (String × α))
    (h : (m.map Prod.fst).Nodup) (p : String × α) (hp : p ∈ m) :
    alGet p.1 m = some p.2 := by
  induction m with
  | nil => cases hp
  | cons q rest ih =>
    obtain ⟨k', v'⟩ := q
    simp only [List.map_cons, List.nodup_cons] at h
    rcases List.mem_cons.mp hp with rfl | hmem
    · simp [alGet]
    · have hne : k' ≠ p.1 := by
        intro hc
        exact h.1 (List.mem_map.mpr ⟨p, hmem, hc.symm⟩)
      simp only [alGet, if_neg hne]
      exact ih h.2 hmem

theorem nodesFold_nodup {α : Type} (f : Node → α) (nodes : List Node) :
    ∀ m : List (String × α), (m.map Prod.fst).Nodup →
      (((nodes.foldl (fun m n => alSet n.id (f n) m) m)).map Prod.fst).Nodup := by
  induction nodes with
  | nil => intro m hm; exact hm
  | cons n ns ih =>
    intro m hm
    exact ih _ (alSet_keys_nodup _ _ _ hm)

theorem nodesFold_values_zero (nodes : List Node) :
    ∀ m : List (String × ℤ), (∀ p ∈ m, p.2 = 0) →
      ∀ p ∈ nodes.foldl (fun m n => alSet n.id 0 m) m, p.2 = 0 := by
  induction nodes with
  | nil => intro m hm; exact hm
  | cons n ns ih =>
    intro m hm
    refine ih _ ?_
    intro p hp
    rcases mem_alSet p n.id 0 m hp with rfl | hmem
    · rfl
    · exact hm p hmem

theorem nodesFold_keys_sub (nodes : List Node) :
    ∀ (m : List (String × ℤ)) (k : String) (v : ℤ),
      alGet k (nodes.foldl (fun m n => alSet n.id 0 m) m) = some v →
      (∃ n ∈ nodes, n.id = k) ∨ (∃ w, alGet k m = some w) := by
  induction nodes with
  | nil =>
    intro m k v h
    exact Or.inr ⟨v, h⟩
  | cons n ns ih =>
    intro m k v h
    rcases ih _ k v h with ⟨n', hn', hid⟩ | ⟨w, hw⟩
    · exact Or.inl ⟨n', List.mem_cons_of_mem _ hn', hid⟩
    · by_cases hk : n.id = k
      · exact Or.inl ⟨n, List.mem_cons_self _ _, hk⟩
      · rw [alGet_alSet_ne _ _ _ _ hk] at hw
        exact Or.inr ⟨w, hw⟩

theorem countTargets_cons (k : String) (e : Edge) (es : List Edge) :
    countTargets k (e :: es) =
      (if e.target = k then countTargets k es + 1 else countTargets k es) := by
  unfold countTargets
  by_cases h : e.target = k
  · simp [List.filter_cons, h]
  · simp [List.filter_cons, h]

theorem countTargets_nonneg (k : String) (es : List Edge) : 0 ≤ countTargets k es := by
  unfold countTargets
  exact Int.ofNat_nonneg _

theorem countTargets_pos (k : String) (es : List Edge) (e : Edge)
    (he : e ∈ es) (ht : e.target = k) : 1 ≤ countTargets k es := by
  unfold countTargets
  have : e ∈ es.filter fun e => e.target = k := List.mem_filter.mpr ⟨he, by simp [ht]⟩
  have hpos : 0 < (es.filter fun e => e.target = k).length :=
    List.length_pos.mpr (List.ne_nil_of_mem this)
  exact_mod_cast hpos

theorem inDegree_fold (es : List Edge) :
    ∀ (g : List (String × List String)) (d : List (String × ℤ)) (k : String) (v : ℤ),
      alGet k (es.foldl graphStep (g, d)).2 = some v →
      (∃ w, alGet k d = some w ∧ v = w + countTargets k es) ∨
      (alGet k d = none ∧ v = countTargets k es ∧ 1 ≤ countTargets k es) := by
  induction es with
  | nil =>
    intro g d k v h
    refine Or.inl ⟨v, h, ?_⟩
    simp [countTargets]
  | cons e es ih =>
    intro g d k v h
    have h' : alGet k (es.foldl graphStep (graphStep (g, d) e)).2 = some v := h
    rcases ih (graphStep (g, d) e).1 (graphStep (g, d) e).2 k v h' with
      ⟨w, hw, hv⟩ | ⟨hnone, hv, hge⟩
    · by_cases hk : e.target = k
      · subst hk
        rw [show (graphStep (g, d) e).2 =
            alSet e.target ((alGet e.target d).getD 0 + 1) d from rfl,
          alGet_alSet_self] at hw
        rcases hd : alGet e.target d with _ | w0
        · refine Or.inr ⟨rfl, ?_, ?_⟩
          · rw [countTargets_cons, if_pos rfl]
            rw [hd] at hw
            simp only [Option.getD_none, Option.some.injEq] at hw
            omega
          · rw [countTargets_cons, if_pos rfl]
            have := countTargets_nonneg e.target es
            omega
        · refine Or.inl ⟨w0, rfl, ?_⟩
          rw [hd] at hw
          simp only [Option.getD_some, Option.some.injEq] at hw
          rw [countTargets_cons, if_pos rfl]
          omega
      · rw [show (graphStep (g, d) e).2 =
            alSet e.target ((alGet e.target d).getD 0 + 1) d from rfl,
          alGet_alSet_ne _ _ _ _ hk] at hw
        refine Or.inl ⟨w, hw, ?_⟩
        rw [countTargets_cons, if_neg hk]
        exact hv
    · by_cases hk : e.target = k
      · subst hk
        rw [show (graphStep (g, d) e).2 =
            alSet e.target ((alGet e.target d).getD 0 + 1) d from rfl,
          alGet_alSet_self] at hnone
        cases hnone
      · rw [show (graphStep (g, d) e).2 =
            alSet e.target ((alGet e.target d).getD 0 + 1) d from rfl,
          alGet_alSet_ne _ _ _ _ hk] at hnone
        refine Or.inr ⟨hnone, ?_, ?_⟩
        · rw [countTargets_cons, if_neg hk]; exact hv
        · rw [countTargets_cons, if_neg hk]; exact hge

theorem edgesFold_nodup (es : List Edge) :
    ∀ (g : List (String × List String)) (d : List (String × ℤ)),
      (d.map Prod.fst).Nodup → (((es.foldl graphStep (g, d)).2).map Prod.fst).Nodup := by
  induction es with
  | nil => intro g d hd; exact hd
  | cons e es ih =>
    intro g d hd
    exact ih (graphStep (g, d) e).1 (graphStep (g, d) e).2 (alSet_keys_nodup _ _ _ hd)

/-- When every node has an incoming edge, every entry of the in-degree map
built by `buildExecutionOrder` is nonzero. -/
theorem inDegree_all_pos (nodes : List Node) (edges : List Edge)
    (H : ∀ n ∈ nodes, ∃ e ∈ edges, e.target = n.id) :
    ∀ p ∈ (buildGraphMaps nodes edges).2.1, ¬p.2 = 0 := by
  intro p hp
  have hsrc : (buildGraphMaps nodes edges).2.1 =
      (edges.foldl graphStep
        (nodes.foldl (fun g n => alSet n.id [] g) [],
         nodes.foldl (fun m n => alSet n.id (0 : ℤ) m) [])).2 := rfl
  rw [hsrc] at hp
  have hnodup0 : ((nodes.foldl (fun m n => alSet n.id (0 : ℤ) m) []).map Prod.fst).Nodup :=
    nodesFold_nodup (fun _ => (0 : ℤ)) nodes [] (by simp)
  have hnodup : (((edges.foldl graphStep
      (nodes.foldl (fun g n => alSet n.id [] g) [],
       nodes.foldl (fun m n => alSet n.id (0 : ℤ) m) [])).2).map Prod.fst).Nodup :=
    edgesFold_nodup edges _ _ hnodup0
  have hget := alGet_eq_of_mem_nodup _ hnodup p hp
  rcases inDegree_fold edges _ _ p.1 p.2 hget with ⟨w, hw, hv⟩ | ⟨_, hv, hge⟩
  · have hw0 : w = 0 :=
      nodesFold_values_zero nodes [] (by simp) (p.1, w) (alGet_mem _ _ _ hw)
    have hkey : ∃ n ∈ nodes, n.id = p.1 := by
      rcases nodesFold_keys_sub nodes [] p.1 w hw with hk | ⟨w', hw'⟩
      · exact hk
      · simp [alGet] at hw'
    obtain ⟨n, hn, hid⟩ := hkey
    obtain ⟨e, he, ht⟩ := H n hn
    have hcnt := countTargets_pos p.1 edges e he (hid ▸ ht)
    omega
  · omega

/-- With no in-degree-zero node the Kahn queue is never seeded, so the
computed execution order is empty. -/
theorem buildExecutionOrder_nil (nodes : List Node) (edges : List Edge)
    (H : ∀ n ∈ nodes, ∃ e ∈ edges, e.target = n.id) :
    buildExecutionOrder nodes edges = [] := by
  unfold buildExecutionOrder
  have hq : (((buildGraphMaps nodes edges).2.1).filter fun p => p.2 = 0) = [] := by
    rw [List.filter_eq_nil_iff]
    intro p hp
    simpa using inDegree_all_pos nodes edges H p hp
  rcases hbg : buildGraphMaps nodes edges with ⟨graph, inDeg, nodeMap⟩
  rw [hbg] at hq
  simp only at hq ⊢
  rw [hq]
  simp [kahnLoop]

/-- C1: in a workflow graph where every node has an incoming edge (so no
node has in-degree 0, e.g. the two-cycle A→B, B→A), the computed execution
order is empty and `executeWorkflow` fails with the wrapped
"No valid execution path" error — for every choice of provider oracles and
with the conversation memory returned unchanged, i.e. no retrieval or
generation step runs. -/
theorem C1_no_indegree_zero_fails (nodes : List Node) (edges : List Edge)
    (H : ∀ n ∈ nodes, ∃ e ∈ edges, e.target = n.id) :
    buildExecutionOrder nodes edges = [] ∧
    strContains
      "Workflow execution failed: No valid execution path found. Ensure nodes are properly connected."
      "No valid execution path" = true ∧
    ∀ (env : WfEnv) (docs : DocStore) (mem : MemoryState) (nodeData : NodeData)
      (workflowId : Option String) (now : Nat),
      executeWorkflow env docs mem nodes edges nodeData workflowId now =
        (.error ("Workflow execution failed: " ++
          "No valid execution path found. Ensure nodes are properly connected."), mem) := by
  have horder := buildExecutionOrder_nil nodes edges H
  refine ⟨horder, by decide, ?_⟩
  intro env docs mem nodeData workflowId now
  unfold executeWorkflow executeWorkflowInner
  simp [horder]

theorem C1_no_indegree_zero_fails_wit :
    buildExecutionOrder [nodeA, nodeB] [edgeAB, edgeBA] = [] ∧
    strContains
      "Workflow execution failed: No valid execution path found. Ensure nodes are properly connected."
      "No valid execution path" = true ∧
    executeWorkflow wfEnvGemini [] [] [nodeA, nodeB] [edgeAB, edgeBA] [] none 0 =
      (.error ("Workflow execution failed: " ++
        "No valid execution path found. Ensure nodes are properly connected."), []) := by
  have h := C1_no_indegree_zero_fails [nodeA, nodeB] [edgeAB, edgeBA] (by decide)
  exact ⟨h.1, h.2.1, h.2.2 wfEnvGemini [] [] [] none 0⟩

/-- C4 counterexample: a workflow with a single input node and no output
node fails with "Output node not found" — but the memory store has already
been mutated by the call: the user query and the assistant answer were
committed before the output-node check ran. -/
theorem C4_counterexample :
    executeWorkflow wfEnvGemini [] [] [nodeInput] [] [] (some "wf") 7 =
      (.error "Workflow execution failed: Output node not found", memQA) ∧
    memQA ≠ ([] : MemoryState) := by
  exact ⟨rfl, by decide⟩

/-- C4 amended: for every workflow graph with no `output`-typed node,
`executeWorkflow` always fails (it never returns a success); the check runs
after response generation, however, so the failed call may leave the
appended user/assistant messages in the conversation memory (see the
counterexample above). -/
theorem C4_missing_output_fails_amended (env : WfEnv) (docs : DocStore)
    (mem : MemoryState) (nodes : List Node) (edges : List Edge)
    (nodeData : NodeData) (workflowId : Option String) (now : Nat)
    (H : ∀ n ∈ nodes, ¬n.type = "output") :
    ∃ e mem', executeWorkflow env docs mem nodes edges nodeData workflowId now =
      (.error e, mem') := by
  have hfind : nodes.find? (fun n => n.type == "output") = none :=
    List.find?_eq_none.mpr fun n hn => by simpa using H n hn
  suffices hinner : ∃ e mem',
      executeWorkflowInner env docs mem nodes edges nodeData workflowId now =
        (.error e, mem') by
    obtain ⟨e, mem', hin⟩ := hinner
    refine ⟨"Workflow execution failed: " ++ e, mem', ?_⟩
    unfold executeWorkflow
    simp only [hin]
  simp only [executeWorkflowInner]
  split
  · exact ⟨_, _, rfl⟩
  · split
    · exact ⟨_, _, rfl⟩
    · split
      · exact ⟨_, _, rfl⟩
      · simp only [hfind]
        exact ⟨_, _, rfl⟩

theorem C4_missing_output_fails_amended_wit :
    ∃ e mem', executeWorkflow wfEnvGemini [] [] [nodeInput] [] [] (some "wf") 7 =
      (.error e, mem') :=
  C4_missing_output_fails_amended wfEnvGemini [] [] [nodeInput] [] [] (some "wf") 7
    (by decide)

theorem trimL_suffix (l : List Char) : trimL l <:+ l :=
  List.dropWhile_suffix _

theorem trimR_isPfx (m : List Char) : trimR m <+: m := by
  unfold trimR
  have h := List.dropWhile_suffix (l := m.reverse) jsWs
  have h2 := List.reverse_prefix.mpr h
  simpa using h2

theorem jsTrim_infix_self (l : List Char) : jsTrim l <:+: l :=
  ((trimR_isPfx (trimL l)).isInfix).trans (trimL_suffix l).isInfix

theorem dropWhile_head_not (p : Char → Bool) :
    ∀ (l : List Char) (c : Char) (cs : List Char),
      l.dropWhile p = c :: cs → p c = false := by
  intro l
  induction l with
  | nil => intro c cs h; cases h
  | cons a l ih =>
    intro c cs h
    rw [List.dropWhile_cons] at h
    by_cases hp : p a
    · rw [if_pos hp] at h
      exact ih c cs h
    · rw [if_neg hp] at h
      cases h
      simpa using hp

/-- The head of a trimmed string is not whitespace. -/
theorem jsTrim_head_not_ws (l : List Char) (c : Char) (cs : List Char)
    (h : jsTrim l = c :: cs) : jsWs c = false := by
  have hpfx : jsTrim l <+: trimL l := trimR_isPfx (trimL l)
  rw [h] at hpfx
  obtain ⟨t, ht⟩ := hpfx
  have : trimL l = c :: (cs ++ t) := by rw [← ht]; simp
  exact dropWhile_head_not jsWs l c (cs ++ t) this

/-- The last character of a trimmed string is not whitespace. -/
theorem jsTrim_last_not_ws (l : List Char) (c : Char) (cs : List Char)
    (h : (jsTrim l).reverse = c :: cs) : jsWs c = false := by
  have hrev : (jsTrim l).reverse = (trimL l).reverse.dropWhile jsWs := by
    unfold jsTrim trimR
    simp
  rw [hrev] at h
  exact dropWhile_head_not jsWs (trimL l).reverse c cs h

/-- A trimmed string is empty exactly when every character is whitespace. -/
theorem jsTrim_eq_nil_iff (l : List Char) :
    jsTrim l = [] ↔ ∀ c ∈ l, jsWs c := by
  unfold jsTrim trimR
  constructor
  · intro h c hc
    have hdrop : (trimL l).reverse.dropWhile jsWs = [] := by
      have := congrArg List.reverse h
      simpa using this
    have hall : ∀ c ∈ (trimL l).reverse, jsWs c := List.dropWhile_eq_nil_iff.mp hdrop
    have hl := List.takeWhile_append_dropWhile jsWs l
    rw [show List.dropWhile jsWs l = trimL l from rfl] at hl
    rw [← hl] at hc
    rcases List.mem_append.mp hc with h1 | h2
    · exact List.mem_takeWhile_imp h1
    · exact hall c (List.mem_reverse.mpr h2)
  · intro hall
    have : (trimL l).reverse.dropWhile jsWs = [] := by
      rw [List.dropWhile_eq_nil_iff]
      intro c hc
      exact hall c ((trimL_suffix l).subset (List.mem_reverse.mp hc))
    rw [this]
    rfl

/-- A nonempty pattern with non-whitespace first character stays an infix
under `dropWhile jsWs`. -/
theorem infix_dropWhile_of_infix (p : List Char) (c : Char) (cs : List Char)
    (hpeq : p = c :: cs) (hc : jsWs c = false) (m : List Char)
    (h : p <:+: m) : p <:+: m.dropWhile jsWs := by
  obtain ⟨u, v, huv⟩ := h
  subst huv
  induction u with
  | nil =>
    rw [List.nil_append, hpeq, List.cons_append, List.dropWhile_cons, hc]
    exact ⟨[], v, by simp [hpeq]⟩
  | cons a u' ih =>
    rw [List.cons_append, List.cons_append, List.dropWhile_cons]
    by_cases ha : jsWs a
    · rw [if_pos ha]
      exact ih
    · rw [if_neg ha]
      exact ⟨a :: u', v, by simp⟩

/-- A nonempty pattern whose first and last characters are not whitespace
survives a JS `trim` of its host string. -/
theorem infix_jsTrim_of_infix (p : List Char) (c : Char) (cs : List Char)
    (hpeq : p = c :: cs) (hc : jsWs c = false)
    (d : Char) (ds : List Char) (hrev : p.reverse = d :: ds) (hd : jsWs d = false)
    (l : List Char) (h : p <:+: l) : p <:+: jsTrim l := by
  have h1 : p <:+: trimL l := infix_dropWhile_of_infix p c cs hpeq hc l h
  have h2 : p.reverse <:+: (trimL l).reverse := List.reverse_infix.mpr h1
  have h3 : p.reverse <:+: (trimL l).reverse.dropWhile jsWs :=
    infix_dropWhile_of_infix p.reverse d ds hrev hd _ h2
  have h4 : p.reverse.reverse <:+: ((trimL l).reverse.dropWhile jsWs).reverse :=
    List.reverse_infix.mpr h3
  simpa using h4

/-- Characters that are neither whitespace nor sentence punctuation survive
into some dropWhile-remainder. -/
theorem mem_dropWhile_of_not (p : Char → Bool) (l : List Char) (c : Char)
    (hc : c ∈ l) (hnp : ¬p c = true) : c ∈ l.dropWhile p := by
  have hl := List.takeWhile_append_dropWhile p l
  rw [← hl] at hc
  rcases List.mem_append.mp hc with h1 | h2
  · exact absurd (List.mem_takeWhile_imp h1) hnp
  · exact h2

/-- The sentence split never drops a character that is neither whitespace
nor sentence-terminal punctuation. -/
theorem splitSentencesAux_mem (c : Char) (hws : ¬jsWs c = true)
    (hpunct : ¬isSentPunct c = true) :
    ∀ (l acc : List Char), c ∈ l ∨ c ∈ acc →
      ∃ s ∈ splitSentencesAux l acc, c ∈ s := by
  intro l acc
  induction l, acc using splitSentencesAux.induct with
  | case1 acc =>
    intro hc
    rcases hc with h | h
    · cases h
    · exact ⟨acc.reverse, by simp [splitSentencesAux], List.mem_reverse.mpr h⟩
  | case2 acc c' rest hmatch ih =>
    intro hc
    have hexp : splitSentencesAux (c' :: rest) acc =
        acc.reverse :: splitSentencesAux
          (((c' :: rest).dropWhile isSentPunct).dropWhile jsWs) [] := by
      rw [splitSentencesAux, dif_pos hmatch]
    rcases hc with h | h
    · have hc2 : c ∈ ((c' :: rest).dropWhile isSentPunct).dropWhile jsWs :=
        mem_dropWhile_of_not _ _ _ (mem_dropWhile_of_not _ _ _ h hpunct) hws
      obtain ⟨s, hs, hcs⟩ := ih (Or.inl hc2)
      exact ⟨s, by rw [hexp]; exact List.mem_cons_of_mem _ hs, hcs⟩
    · exact ⟨acc.reverse, by rw [hexp]; exact List.mem_cons_self _ _,
        List.mem_reverse.mpr h⟩
  | case3 acc c' rest hnomatch ih =>
    intro hc
    have hexp : splitSentencesAux (c' :: rest) acc =
        splitSentencesAux rest (c' :: acc) := by
      rw [splitSentencesAux, dif_neg hnomatch]
    rw [hexp]
    apply ih
    rcases hc with h | h
    · rcases List.mem_cons.mp h with rfl | hmem
      · exact Or.inr (List.mem_cons_self _ _)
      · exact Or.inl hmem
    · exact Or.inr (List.mem_cons_of_mem _ h)

/-- One chunker step keeps every established (nonempty, trim-shaped)
pattern: either still inside the running buffer or inside a flushed chunk. -/
theorem chunkStep_preserves (size olap : Nat) (st : ChunkState) (sentence : List Char)
    (p : List Char) (c : Char) (cs : List Char) (hpeq : p = c :: cs)
    (hc : jsWs c = false) (d : Char) (ds : List Char) (hrev : p.reverse = d :: ds)
    (hd : jsWs d = false)
    (hp : p <:+: st.current ∨ ∃ ch ∈ st.chunks, p <:+: ch) :
    p <:+: (chunkStep size olap st sentence).current ∨
      ∃ ch ∈ (chunkStep size olap st sentence).chunks, p <:+: ch := by
  unfold chunkStep
  split
  · rcases hp with h | ⟨ch, hch, hpch⟩
    · exact Or.inr ⟨jsTrim st.current, by simp,
        infix_jsTrim_of_infix p c cs hpeq hc d ds hrev hd _ h⟩
    · exact Or.inr ⟨ch, by simp [hch], hpch⟩
  · rcases hp with h | ⟨ch, hch, hpch⟩
    · exact Or.inl (h.trans (List.prefix_append _ _).isInfix)
    · exact Or.inr ⟨ch, hch, hpch⟩

theorem chunkFold_preserves (size olap : Nat) (sentences : List (List Char)) :
    ∀ (st : ChunkState) (p : List Char) (c : Char) (cs : List Char),
      p = c :: cs → jsWs c = false →
      ∀ (d : Char) (ds : List Char), p.reverse = d :: ds → jsWs d = false →
      (p <:+: st.current ∨ ∃ ch ∈ st.chunks, p <:+: ch) →
      (p <:+: (sentences.foldl (chunkStep size olap) st).current ∨
        ∃ ch ∈ (sentences.foldl (chunkStep size olap) st).chunks, p <:+: ch) := by
  induction sentences with
  | nil => intro st p c cs h1 h2 d ds h3 h4 hp; exact hp
  | cons s rest ih =>
    intro st p c cs h1 h2 d ds h3 h4 hp
    rw [List.foldl_cons]
    exact ih _ p c cs h1 h2 d ds h3 h4
      (chunkStep_preserves size olap st s p c cs h1 h2 d ds h3 h4 hp)

/-- The sentence just processed is a suffix of the new running buffer. -/
theorem sentence_suffix_step (size olap : Nat) (st : ChunkState) (s : List Char) :
    s <:+ (chunkStep size olap st s).current := by
  unfold chunkStep
  split
  · exact ⟨joinSpace (jsSliceNeg (olap / 10) (splitWsList st.current)) ++ [' '], by simp⟩
  · show s <:+ st.current ++ _
    split
    · exact ⟨st.current, rfl⟩
    · exact ⟨st.current ++ [' '], by simp⟩

/-- Every sentence's trimmed form ends up inside the final buffer or inside
some flushed chunk. -/
theorem chunkFold_sentence (size olap : Nat) (sentences : List (List Char)) :
    ∀ (st : ChunkState) (s : List Char), s ∈ sentences →
      ∀ (c : Char) (cs : List Char), jsTrim s = c :: cs →
      ∀ (d : Char) (ds : List Char), (jsTrim s).reverse = d :: ds →
      (jsTrim s <:+: (sentences.foldl (chunkStep size olap) st).current ∨
        ∃ ch ∈ (sentences.foldl (chunkStep size olap) st).chunks, jsTrim s <:+: ch) := by
  induction sentences with
  | nil => intro st s hs; cases hs
  | cons s0 rest ih =>
    intro st s hs c cs hceq d ds hdeq
    rw [List.foldl_cons]
    rcases List.mem_cons.mp hs with rfl | hmem
    · have hstep : jsTrim s <:+: (chunkStep size olap st s).current :=
        (jsTrim_infix_self s).trans (sentence_suffix_step size olap st s).isInfix
      exact chunkFold_preserves size olap rest (chunkStep size olap st s)
        (jsTrim s) c cs hceq (jsTrim_head_not_ws s c cs hceq) d ds hdeq
        (jsTrim_last_not_ws s d ds hdeq) (Or.inl hstep)
    · exact ih (chunkStep size olap st s0) s hmem c cs hceq d ds hdeq

/-- C9 counterexample. (1) The input `". "` contains a non-whitespace
character, yet the sentence split yields only empty fragments and
`splitIntoChunks` returns no chunk at all. (2) The input `"Hi "` splits into
the single sentence `"Hi "` (with its trailing space), but the only
returned chunk is the trimmed `"Hi"`, which does not contain that sentence
verbatim. -/
theorem C9_counterexample :
    (∃ c ∈ ['.', ' '], ¬jsWs c = true) ∧
    splitIntoChunks ['.', ' '] 1000 200 = [] ∧
    splitSentences ['H', 'i', ' '] = [['H', 'i', ' ']] ∧
    splitIntoChunks ['H', 'i', ' '] 1000 200 = [['H', 'i']] ∧
    ¬(['H', 'i', ' '] <:+: ['H', 'i']) := by
  have hsent1 : splitSentences ['.', ' '] = [[], []] := by
    unfold splitSentences
    rw [splitSentencesAux, dif_pos (by decide)]
    rw [show ((['.', ' '].dropWhile isSentPunct).dropWhile jsWs) = ([] : List Char)
      from rfl]
    rw [splitSentencesAux]
    rfl
  have hsent2 : splitSentences ['H', 'i', ' '] = [['H', 'i', ' ']] := by
    unfold splitSentences
    rw [splitSentencesAux, dif_neg (by decide)]
    rw [splitSentencesAux, dif_neg (by decide)]
    rw [splitSentencesAux, dif_neg (by decide)]
    rw [splitSentencesAux]
    rfl
  refine ⟨⟨'.', by decide, by decide⟩, ?_, hsent2, ?_, ?_⟩
  · unfold splitIntoChunks
    rw [hsent1]
    rfl
  · unfold splitIntoChunks
    rw [hsent2]
    rfl
  · rintro ⟨u, v, huv⟩
    have := congrArg List.length huv
    simp at this
    omega

/-- C9 amended: for every input containing at least one character that is
neither whitespace nor sentence punctuation (`. ! ?`), `splitIntoChunks`
returns at least one chunk, every returned chunk is nonempty, and every
sentence produced by the sentence split appears — after trimming its
surrounding whitespace — inside some returned chunk. -/
theorem C9_chunker_amended (text : List Char) (chunkSize overlap : Nat)
    (H : ∃ c ∈ text, ¬jsWs c = true ∧ ¬isSentPunct c = true) :
    splitIntoChunks text chunkSize overlap ≠ [] ∧
    (∀ chunk ∈ splitIntoChunks text chunkSize overlap, chunk ≠ []) ∧
    (∀ s ∈ splitSentences text, ∃ chunk ∈ splitIntoChunks text chunkSize overlap,
      jsTrim s <:+: chunk) := by
  have hdef : splitIntoChunks text chunkSize overlap =
      (if (jsTrim ((splitSentences text).foldl (chunkStep chunkSize overlap)
            { chunks := [], current := [] }).current).isEmpty
       then ((splitSentences text).foldl (chunkStep chunkSize overlap)
            { chunks := [], current := [] }).chunks
       else ((splitSentences text).foldl (chunkStep chunkSize overlap)
            { chunks := [], current := [] }).chunks ++
          [jsTrim ((splitSentences text).foldl (chunkStep chunkSize overlap)
            { chunks := [], current := [] }).current]).filter
        (fun chunk => 0 < chunk.length) := rfl
  have key : ∀ s ∈ splitSentences text, jsTrim s ≠ [] →
      ∃ chunk ∈ splitIntoChunks text chunkSize overlap, jsTrim s <:+: chunk := by
    intro s hs hne
    obtain ⟨c, cs, hceq⟩ := List.exists_cons_of_ne_nil hne
    obtain ⟨d, ds, hdeq⟩ := List.exists_cons_of_ne_nil
      (fun h0 => hne (by simpa using congrArg List.reverse h0) :
        (jsTrim s).reverse ≠ [])
    have hlen : 0 < (jsTrim s).length := by rw [hceq]; simp
    rcases chunkFold_sentence chunkSize overlap (splitSentences text)
        { chunks := [], current := [] } s hs c cs hceq d ds hdeq with hcur | ⟨ch, hch, hpch⟩
    · have htr : jsTrim s <:+: jsTrim ((splitSentences text).foldl
          (chunkStep chunkSize overlap) { chunks := [], current := [] }).current :=
        infix_jsTrim_of_infix (jsTrim s) c cs hceq (jsTrim_head_not_ws s c cs hceq)
          d ds hdeq (jsTrim_last_not_ws s d ds hdeq) _ hcur
      have hne2 : jsTrim ((splitSentences text).foldl
          (chunkStep chunkSize overlap) { chunks := [], current := [] }).current ≠ [] := by
        intro h0
        rw [h0] at htr
        have := htr.sublist.length_le
        simp only [List.length_nil] at this
        omega
      refine ⟨_, ?_, htr⟩
      rw [hdef, if_neg (by simpa [List.isEmpty_iff] using hne2)]
      refine List.mem_filter.mpr ⟨by simp, ?_⟩
      simpa using List.length_pos.mpr hne2
    · have hchne : 0 < ch.length := by
        rcases ch with _ | ⟨x, xs⟩
        · have := hpch.sublist.length_le
          simp only [List.length_nil] at this
          rw [hceq] at this
          simp at this
        · simp
      refine ⟨ch, ?_, hpch⟩
      rw [hdef]
      refine List.mem_filter.mpr ⟨?_, by simpa using hchne⟩
      split
      · exact hch
      · exact List.mem_append_left _ hch
  obtain ⟨c0, hc0, hws0, hpunct0⟩ := H
  obtain ⟨sstar, hsstar, hcsstar⟩ :=
    splitSentencesAux_mem c0 hws0 hpunct0 text [] (Or.inl hc0)
  have hstar : jsTrim sstar ≠ [] := by
    intro h0
    exact hws0 (by simpa using (jsTrim_eq_nil_iff sstar).mp h0 c0 hcsstar)
  have hmain : splitIntoChunks text chunkSize overlap ≠ [] := by
    obtain ⟨chunk, hchunk, _⟩ := key sstar hsstar hstar
    exact List.ne_nil_of_mem hchunk
  refine ⟨hmain, ?_, ?_⟩
  · intro chunk hchunk
    rw [hdef] at hchunk
    have := (List.mem_filter.mp hchunk).2
    intro h0
    rw [h0] at this
    simp at this
  · intro s hs
    by_cases h0 : jsTrim s = []
    · obtain ⟨chunk, hchunk⟩ := List.exists_mem_of_ne_nil _ hmain
      exact ⟨chunk, hchunk, h0 ▸ List.nil_infix⟩
    · exact key s hs h0

theorem C9_chunker_amended_wit :
    splitIntoChunks ['H', 'i', ' '] 1000 200 ≠ [] ∧
    (∀ chunk ∈ splitIntoChunks ['H', 'i', ' '] 1000 200, chunk ≠ []) ∧
    (∀ s ∈ splitSentences ['H', 'i', ' '],
      ∃ chunk ∈ splitIntoChunks ['H', 'i', ' '] 1000 200, jsTrim s <:+: chunk) :=
  C9_chunker_amended ['H', 'i', ' '] 1000 200 ⟨'H', by decide, by decide, by decide⟩

theorem dedupLoop_sublist : ∀ (l : List Ctx) (seen : List String),
    List.Sublist (dedupLoop l seen) l := by
  intro l
  induction l with
  | nil => intro seen; simp [dedupLoop]
  | cons item rest ih =>
    intro seen
    unfold dedupLoop
    by_cases h : textHash item ∈ seen
    · rw [if_pos h]; exact (ih seen).cons _
    · rw [if_neg h]; exact (ih _).cons₂ _

theorem dedupLoop_hash_not_seen : ∀ (l : List Ctx) (seen : List String)
    (u : Ctx), u ∈ dedupLoop l seen → textHash u ∉ seen := by
  intro l
  induction l with
  | nil => intro seen u hu; simp [dedupLoop] at hu
  | cons item rest ih =>
    intro seen u hu
    unfold dedupLoop at hu
    by_cases h : textHash item ∈ seen
    · rw [if_pos h] at hu; exact ih seen u hu
    · rw [if_neg h] at hu
      rcases List.mem_cons.mp hu with rfl | hmem
      · exact h
      · have := ih _ u hmem
        intro hc; exact this (List.mem_cons_of_mem _ hc)

theorem dedupLoop_pairwise : ∀ (l : List Ctx) (seen : List String),
    List.Pairwise (fun a b => textHash a ≠ textHash b) (dedupLoop l seen) := by
  intro l
  induction l with
  | nil => intro seen; simp [dedupLoop]
  | cons item rest ih =>
    intro seen
    unfold dedupLoop
    by_cases h : textHash item ∈ seen
    · rw [if_pos h]; exact ih seen
    · rw [if_neg h]
      refine List.Pairwise.cons ?_ (ih _)
      intro u hu heq
      exact dedupLoop_hash_not_seen _ _ u hu (heq ▸ List.mem_cons_self _ _)

theorem dedupLoop_represents : ∀ (l : List Ctx) (seen : List String),
    List.Pairwise scoreDesc l →
    ∀ x ∈ l, textHash x ∉ seen →
    ∃ u ∈ dedupLoop l seen, textHash u = textHash x ∧ x.score ≤ u.score := by
  intro l
  induction l with
  | nil => intro seen _ x hx; cases hx
  | cons item rest ih =>
    intro seen hsorted x hx hxseen
    obtain ⟨hrel, hrest⟩ := List.pairwise_cons.mp hsorted
    unfold dedupLoop
    by_cases h : textHash item ∈ seen
    · rw [if_pos h]
      rcases List.mem_cons.mp hx with rfl | hmem
      · exact absurd h hxseen
      · exact ih seen hrest x hmem hxseen
    · rw [if_neg h]
      rcases List.mem_cons.mp hx with rfl | hmem
      · exact ⟨_, List.mem_cons_self _ _, rfl, le_refl _⟩
      · by_cases hh : textHash x = textHash item
        · exact ⟨item, List.mem_cons_self _ _, hh.symm, hrel x hmem⟩
        · have hxseen' : textHash x ∉ textHash item :: seen := by
            intro hc
            rcases List.mem_cons.mp hc with hc1 | hc2
            · exact hh hc1
            · exact hxseen hc2
          obtain ⟨u, hu, hueq, hule⟩ := ih _ hrest x hmem hxseen'
          exact ⟨u, List.mem_cons_of_mem _ hu, hueq, hule⟩

/-- C5: `deduplicateContext` returns a list with pairwise-distinct
first-100-character prefixes, sorted by score descending, whose elements all
come from the input; every input item is represented by a surviving entry
with the same prefix and a score at least as high; and for two entries
sharing a prefix with distinct scores, exactly the higher-scoring one
survives. -/
theorem C5_dedup_spec (context : List Ctx) :
    List.Pairwise (fun a b => textHash a ≠ textHash b) (deduplicateContext context) ∧
    List.Pairwise scoreDesc (deduplicateContext context) ∧
    (∀ u ∈ deduplicateContext context, u ∈ context) ∧
    (∀ x ∈ context, ∃ u ∈ deduplicateContext context,
      textHash u = textHash x ∧ x.score ≤ u.score) ∧
    (∀ x y : Ctx, textHash x = textHash y → y.score < x.score →
      deduplicateContext [x, y] = [x]) := by
  have hsub := dedupLoop_sublist (List.insertionSort scoreDesc context) []
  have hsorted := List.sorted_insertionSort scoreDesc context
  have hperm := List.perm_insertionSort scoreDesc context
  refine ⟨dedupLoop_pairwise _ _, ?_, ?_, ?_, ?_⟩
  · exact hsorted.sublist hsub
  · intro u hu
    exact hperm.mem_iff.mp (hsub.subset hu)
  · intro x hx
    have hx' : x ∈ List.insertionSort scoreDesc context := hperm.mem_iff.mpr hx
    exact dedupLoop_represents _ [] hsorted x hx' (by simp)
  · intro x y hhash hscore
    have hsort2 : List.insertionSort scoreDesc [x, y] = [x, y] := by
      simp only [List.insertionSort, List.orderedInsert]
      rw [if_pos (show scoreDesc x y from le_of_lt hscore)]
    unfold deduplicateContext
    rw [hsort2]
    unfold dedupLoop
    rw [if_neg (by simp)]
    unfold dedupLoop
    rw [if_pos (by simp [hhash.symm])]
    rfl

/-- C3 counterexample: with both providers eligible and both failing, the
surfaced error is the OpenAI wrapper alone — the Gemini provider's failure
reason ("gemini down") appears nowhere in its text. -/
theorem C3_counterexample :
    generateEmbeddings envBothFail ["hello"] =
      .error "Failed to generate embeddings with OpenAI: openai down" ∧
    strContains "Failed to generate embeddings with OpenAI: openai down" "gemini down"
      = false := by
  exact ⟨rfl, by decide⟩

/-- C3 amended: `generateEmbeddings` fails only after every eligible provider
failed, but the surfaced error is not composite: with an OpenAI client
present it names only the OpenAI failure reason, and the error naming the
Gemini reason occurs only when no OpenAI client exists. -/
theorem C3_fallback_error_amended :
    (∀ (env : EmbedEnv) (texts : List String) (e : String),
      generateEmbeddings env texts = .error e →
        (∀ oa, env.openaiEmbed = some oa → ∃ m, oa texts = .error m) ∧
        (∀ g, env.geminiEmbed = some g →
          isGeminiEmbeddingModel env.embeddingModel = true →
          ∃ m, mapExcept g texts = .error m)) ∧
    (∀ (env : EmbedEnv) (texts : List String)
      (g : String → Except String (List ℚ))
      (oa : List String → Except String (List (List ℚ))) (e1 e2 : String),
      env.geminiEmbed = some g → isGeminiEmbeddingModel env.embeddingModel = true →
      mapExcept g texts = .error e1 →
      env.openaiEmbed = some oa → oa texts = .error e2 →
      strContains e2 "401" = false → strContains e2 "API key" = false →
      strContains e2 "Incorrect API key" = false →
      strContains e2 "429" = false → strContains e2 "quota" = false →
      strContains e2 "billing" = false →
      generateEmbeddings env texts =
        .error ("Failed to generate embeddings with OpenAI: " ++ e2)) ∧
    (∀ (env : EmbedEnv) (texts : List String)
      (g : String → Except String (List ℚ)) (e1 : String),
      env.geminiEmbed = some g → isGeminiEmbeddingModel env.embeddingModel = true →
      mapExcept g texts = .error e1 → env.openaiEmbed = none →
      generateEmbeddings env texts =
        .error ("Gemini embedding failed and no OpenAI fallback available: " ++ e1)) := by
  refine ⟨?_, ?_, ?_⟩
  · intro env texts e herr
    unfold generateEmbeddings generateEmbeddingsOpenai at herr
    rcases hg : env.geminiEmbed with _ | g <;> simp only [hg] at herr
    · refine ⟨?_, fun g hgeq => by cases hgeq⟩
      intro oa hoa
      simp only [hoa] at herr
      rcases hoat : oa texts with m | r
      · exact ⟨m, rfl⟩
      · simp only [hoat] at herr; exact Except.noConfusion herr
    · by_cases hmodel : isGeminiEmbeddingModel env.embeddingModel
      · simp only [if_pos hmodel] at herr
        rcases hge : mapExcept g texts with m | r
        · simp only [hge] at herr
          refine ⟨?_, fun g' hg' _ => ?_⟩
          · intro oa hoa
            simp only [hoa] at herr
            rcases hoat : oa texts with m' | r'
            · exact ⟨m', rfl⟩
            · simp only [hoat] at herr; exact Except.noConfusion herr
          · injection hg' with hgg; subst hgg; exact ⟨m, hge⟩
        · simp only [hge] at herr; exact Except.noConfusion herr
      · simp only [if_neg hmodel] at herr
        refine ⟨?_, fun g' hg' hm => absurd hm hmodel⟩
        intro oa hoa
        simp only [hoa] at herr
        rcases hoat : oa texts with m' | r'
        · exact ⟨m', rfl⟩
        · simp only [hoat] at herr; exact Except.noConfusion herr
  · intro env texts g oa e1 e2 hg hmodel hge hoa hoat h1 h2 h3 h4 h5 h6
    unfold generateEmbeddings generateEmbeddingsOpenai
    simp only [hg, if_pos hmodel, hge, hoa, hoat]
    simp [h1, h2, h3, h4, h5, h6]
  · intro env texts g e1 hg hmodel hge hoa
    unfold generateEmbeddings generateEmbeddingsOpenai
    simp only [hg, if_pos hmodel, hge, hoa]

theorem C3_fallback_error_amended_wit :
    generateEmbeddings envBothFail ["hello"] =
      .error ("Failed to generate embeddings with OpenAI: " ++ "openai down") :=
  C3_fallback_error_amended.2.1 envBothFail ["hello"]
    (fun _ => .error "gemini down") (fun _ => .error "openai down")
    "gemini down" "openai down" rfl (by decide) rfl rfl rfl
    (by decide) (by decide) (by decide) (by decide) (by decide) (by decide)

theorem C10_cosine_dimension_wit :
    (∃ e, cosineSimilarity (fun _ => 0) [(1 : ℚ)] [1, 2] = .error e) ∧
    search envEmbedOne (fun _ => 0) docsMismatch "query" "d" 5 =
      .error "Failed to search vector store: Vectors must have the same length" :=
  ⟨(C10_cosine_dimension.1 (fun _ => 0) [(1 : ℚ)] [1, 2]).mpr (by decide),
   C10_cosine_dimension.2.2 envEmbedOne (fun _ => 0) docsMismatch "query" "d" 5
     { id := "d", chunks := [{ text := "t", embedding := [(1 : ℚ), 2] }] } [(1 : ℚ)]
     rfl rfl ⟨{ text := "t", embedding := [(1 : ℚ), 2] }, by decide, by decide⟩⟩
